import Mathlib

/-!
# Verification development for `main.go` (translation service)

A shallow embedding of `TranslateHandler`, `sendErrorResponse` and
`sendJSONResponse` of `src/main.go`, together with the library functions the
handler calls (`strings.Join`, `strings.Split`, `strings.TrimSpace`,
`http.Error`).

Modelling conventions.

* A Go `string` is a Lean `String` (a sequence of Unicode scalar values).  The
  strings of a request come out of `encoding/json`, which only produces valid
  UTF-8; the separator `", "` is ASCII, so splitting on bytes and splitting on
  code points agree on such strings.
* The external collaborators are parameters, gathered in `Env`: the JSON
  decoder applied to the request body and the translation provider
  `gtranslate.TranslateWithParams`.  The provider is a state-passing function,
  so that two calls with the same text may have different outcomes.
* A handler run returns the HTTP response, the ordered trace of observable
  events (mutex operations, provider calls, log lines) and the provider's final
  state.  The response records what the handler hands to the `ResponseWriter`;
  whether the writer accepts the encoded body is an outcome of the environment
  (`Env.encode`), and a refusal is visible as a log line only.
* A `nil` slice and an empty slice are both the empty list.
* Concurrently handled requests are modelled by interleaving: a schedule is a
  list of events, each tagged with the handler that performs it, and
  `translateMutex` is a lock bit that a lock event can set only while it is
  clear.  A `call` event marks the start of a provider call; the call has
  returned when the same handler performs its next event.
-/

namespace TranslationResearch

/-! ## Data model (`main.go`, lines 15-31) -/

/-- Color of `main.go`: a display name paired with an opaque code. -/
structure Color where
  Name : String
  Code : String
deriving DecidableEq, Repr

/-- TranslateRequest of `main.go`. -/
structure TranslateRequest where
  Colors : List Color
  To : String
  RenderText : String
deriving DecidableEq, Repr

/-- TranslateResponse of `main.go`; the zero value of every field is the
default, as in a Go composite literal that leaves the field out. -/
structure TranslateResponse where
  Colors : List Color := []
  RenderText : String := ""
  Status : Bool := false
  Message : String := ""
deriving DecidableEq, Repr

/-- The parameters record `gtranslate.TranslationParams`. -/
structure TranslationParams where
  From : String
  To : String
deriving DecidableEq, Repr

/-! ## Library functions used by the handler -/

/-- The rune predicate `unicode.IsSpace`: the Latin-1 white space characters and
the code points of the Unicode `White_Space` property above Latin-1. -/
def isSpace (r : Char) : Bool :=
  let n := r.toNat
  if n ≤ 0xFF then
    n == 0x09 || n == 0x0A || n == 0x0B || n == 0x0C || n == 0x0D || n == 0x20
      || n == 0x85 || n == 0xA0
  else
    n == 0x1680 || (0x2000 ≤ n && n ≤ 0x200A) || n == 0x2028 || n == 0x2029
      || n == 0x202F || n == 0x205F || n == 0x3000

/-- Removal of leading and trailing white space on a list of code points. -/
def trimChars (s : List Char) : List Char :=
  ((s.dropWhile isSpace).reverse.dropWhile isSpace).reverse

/-- The function `strings.TrimSpace`. -/
def TrimSpace (s : String) : String :=
  String.mk (trimChars s.data)

/-- Prepend a character to the first piece of a split. -/
def consHead (c : Char) : List (List Char) → List (List Char)
  | [] => [[c]]
  | p :: ps => (c :: p) :: ps

/-- The loop of `strings.Split` for a non-empty separator, on code points: scan
from the left; at each occurrence of `sep` close the current piece and skip the
separator (the first argument counts the separator characters still to skip);
the rest of the string is the last piece.  The result is never empty. -/
def splitChars (sep : List Char) : Nat → List Char → List (List Char)
  | _, [] => [[]]
  | skip + 1, _ :: rest => splitChars sep skip rest
  | 0, c :: rest =>
    if sep.isPrefixOf (c :: rest) then
      [] :: splitChars sep (sep.length - 1) rest
    else
      consHead c (splitChars sep 0 rest)

/-- The function `strings.Split s sep` for a non-empty separator `sep`. -/
def Split (s sep : String) : List String :=
  (splitChars sep.data 0 s.data).map String.mk

/-- The function `strings.Join elems sep`. -/
def Join : List String → String → String
  | [], _ => ""
  | [a], _ => a
  | a :: b :: rest, sep => a ++ sep ++ Join (b :: rest) sep

/-! ## HTTP model -/

/-- The part of `http.Request` the handler reads. -/
structure HttpRequest where
  Method : String
  Body : String
deriving DecidableEq, Repr

/-- What is written as the response body: the text printed by `http.Error`, or
the value handed to the JSON encoder by `sendJSONResponse`. -/
inductive ResponseBody where
  | text (s : String)
  | json (data : TranslateResponse)
deriving DecidableEq, Repr

/-- The response as left in the `http.ResponseWriter`. -/
structure HttpResponse where
  statusCode : Nat
  header : List (String × String)
  body : ResponseBody
deriving DecidableEq, Repr

/-- The constant `http.MethodPost`. -/
def MethodPost : String := "POST"

/-- The constant `http.StatusOK`. -/
def StatusOK : Nat := 200

/-- The constant `http.StatusBadRequest`. -/
def StatusBadRequest : Nat := 400

/-- The constant `http.StatusMethodNotAllowed`. -/
def StatusMethodNotAllowed : Nat := 405

/-- The function `http.Error`: a plain-text reply, the message followed by a
newline. -/
def httpError (error : String) (code : Nat) : HttpResponse :=
  { statusCode := code
    header := [("Content-Type", "text/plain; charset=utf-8"),
               ("X-Content-Type-Options", "nosniff")]
    body := .text (error ++ "\n") }

/-- Observable events of a handler run, in program order. -/
inductive Event where
  | lock
  | unlock
  | call (text : String) (params : TranslationParams)
  | log (line : String)
deriving DecidableEq, Repr

/-- The function `sendJSONResponse` of `main.go` (lines 116-123).  The writer
`w` is represented by the error, if any, that `json.NewEncoder(w).Encode(data)`
returns on it.  The result is the response handed to the writer and the log
line of line 121 when the encoding fails. -/
def sendJSONResponse (w : TranslateResponse → Option String) (data : TranslateResponse)
    (statusCode : Nat) : HttpResponse × List Event :=
  ({ statusCode := statusCode
     header := [("Content-Type", "application/json")]
     body := .json data },
   match w data with
   | none => []
   | some err => [Event.log ("Failed to encode JSON response: " ++ err)])

/-- The function `sendErrorResponse` of `main.go` (lines 108-114). -/
def sendErrorResponse (w : TranslateResponse → Option String) (message : String)
    (statusCode : Nat) : HttpResponse × List Event :=
  let response : TranslateResponse := { Status := false, Message := message }
  sendJSONResponse w response statusCode

/-! ## The handler -/

/-- The external collaborators of the handler.  `decode` is
`json.NewDecoder(r.Body).Decode(&request)`; `translate` is
`gtranslate.TranslateWithParams`, threaded through a provider state; `encode`
is the error, if any, of `json.NewEncoder(w).Encode(data)` on the handler's
`ResponseWriter`. -/
structure Env (σ : Type) where
  decode : String → Except String TranslateRequest
  translate : String → TranslationParams → σ → Except String String × σ
  encode : TranslateResponse → Option String

/-- Outcome of a handler run. -/
structure Run (σ : Type) where
  response : HttpResponse
  trace : List Event
  state : σ

/-- The loop of lines 88-95 of `main.go`, started at index `i`: position by
position, the trimmed translated piece when there is one, the original name
otherwise, always with the original code. -/
def translations (translatedColorNames : List String) : Nat → List Color → List Color
  | _, [] => []
  | i, color :: rest =>
    (if h : i < translatedColorNames.length then
        ({ Name := TrimSpace translatedColorNames[i], Code := color.Code } : Color)
      else
        { Name := color.Name, Code := color.Code })
      :: translations translatedColorNames (i + 1) rest

/-- The part of `TranslateHandler` after validation (lines 53-105). -/
def translateAccepted {σ : Type} (env : Env σ) (s0 : σ) (request : TranslateRequest) : Run σ :=
  let colorNames := request.Colors.map Color.Name
  let namesText := Join colorNames ", "
  let params : TranslationParams := { From := "auto", To := request.To }
  let r1 := env.translate request.RenderText params s0
  let (translatedRenderText, log1) :=
    match r1.1 with
    | .ok t => (t, [])
    | .error err => (request.RenderText, [Event.log ("Translation failed for renderText: " ++ err)])
  let r2 := env.translate namesText params r1.2
  let (translatedNames, log2) :=
    match r2.1 with
    | .ok t => (t, [])
    | .error err =>
      (namesText, [Event.log ("Translation failed for '" ++ namesText ++ "': " ++ err)])
  let translatedColorNames := Split translatedNames ", "
  let response : TranslateResponse :=
    { Colors := translations translatedColorNames 0 request.Colors
      RenderText := translatedRenderText
      Status := true
      Message := "Translations completed" }
  let sent := sendJSONResponse env.encode response StatusOK
  { response := sent.1
    trace := [Event.lock, Event.call request.RenderText params, Event.unlock] ++ log1
      ++ [Event.lock, Event.call namesText params, Event.unlock] ++ log2 ++ sent.2
    state := r2.2 }

/-- The function `TranslateHandler` of `main.go` (lines 35-106). -/
def TranslateHandler {σ : Type} (env : Env σ) (s0 : σ) (r : HttpRequest) : Run σ :=
  if r.Method ≠ MethodPost then
    { response := httpError "Method not allowed" StatusMethodNotAllowed, trace := [], state := s0 }
  else
    match env.decode r.Body with
    | .error _ =>
      let sent := sendErrorResponse env.encode "Invalid request payload" StatusBadRequest
      { response := sent.1, trace := sent.2, state := s0 }
    | .ok request =>
      if request.Colors.length = 0 then
        let sent := sendErrorResponse env.encode "No colors to translate" StatusBadRequest
        { response := sent.1, trace := sent.2, state := s0 }
      else
        translateAccepted env s0 request

/-! ## Vocabulary of the statements -/

/-- A request is accepted when it passes the three validations of lines 36-51:
the method is POST, the body decodes, and the colors list is not empty. -/
def Accepted {σ : Type} (env : Env σ) (r : HttpRequest) (request : TranslateRequest) : Prop :=
  r.Method = MethodPost ∧ env.decode r.Body = .ok request ∧ request.Colors ≠ []

/-- The parameters of both provider calls (lines 62-65 and 74-77). -/
def callParams (request : TranslateRequest) : TranslationParams :=
  { From := "auto", To := request.To }

/-- The batch text of line 58. -/
def namesText (request : TranslateRequest) : String :=
  Join (request.Colors.map Color.Name) ", "

/-- What the provider returns to the first call of an accepted run (the
renderText call, line 62). -/
def renderOutcome {σ : Type} (env : Env σ) (s0 : σ) (request : TranslateRequest) :
    Except String String :=
  (env.translate request.RenderText (callParams request) s0).1

/-- What the provider returns to the second call of an accepted run (the names
batch, line 74); the provider is in the state the first call left. -/
def namesOutcome {σ : Type} (env : Env σ) (s0 : σ) (request : TranslateRequest) :
    Except String String :=
  (env.translate (namesText request) (callParams request)
    (env.translate request.RenderText (callParams request) s0).2).1

/-- The text that is split at line 85: the provider's output, or the joined
original names after a failure (line 81). -/
def splitInput (request : TranslateRequest) (o : Except String String) : String :=
  match o with
  | .ok t => t
  | .error _ => namesText request

/-- The text stored in the response's renderText: the provider's output, or the
original text after a failure (line 69). -/
def renderResult (request : TranslateRequest) (o : Except String String) : String :=
  match o with
  | .ok t => t
  | .error _ => request.RenderText

/-- The reading of "status mirrors the HTTP status": the body is a
TranslateResponse whose status is true under HTTP 200 and false under any HTTP
status from 400 on. -/
def StatusMirrorsHTTP (resp : HttpResponse) : Prop :=
  ∃ data, resp.body = .json data ∧
    (resp.statusCode = 200 → data.Status = true) ∧
    (400 ≤ resp.statusCode → data.Status = false)

/-- A fake provider that replays a script of outcomes, one per call, and fails
once the script is exhausted; the decoder yields `request` for every body and
the writer accepts every body. -/
def scriptedEnv (request : TranslateRequest) : Env (List (Except String String)) :=
  { decode := fun _ => .ok request
    translate := fun _ _ script =>
      match script with
      | [] => (.error "no more outcomes", [])
      | o :: rest => (o, rest)
    encode := fun _ => none }

/-- A decoder that rejects every body, with a provider that always fails. -/
def rejectingEnv : Env Unit :=
  { decode := fun _ => .error "invalid character"
    translate := fun _ _ s => (.error "unreachable", s)
    encode := fun _ => none }

/-- Three colors named a, b, c. -/
def abcRequest : TranslateRequest :=
  { Colors := [⟨"a", "#f00"⟩, ⟨"b", "#0f0"⟩, ⟨"c", "#00f"⟩], To := "xx", RenderText := "pick one" }

/-- Same renderText as `abcRequest`, other colors and target language. -/
def crimsonRequest : TranslateRequest :=
  { Colors := [⟨"crimson", "#dc143c"⟩], To := "yy", RenderText := "pick one" }

/-- One color whose name starts with a space. -/
def spacedRequest : TranslateRequest :=
  { Colors := [⟨" red", "#f00"⟩], To := "xx", RenderText := "hi" }

/-- A request without colors. -/
def emptyRequest : TranslateRequest :=
  { Colors := [], To := "xx", RenderText := "hi" }

/-- The provider calls recorded in a trace, in order. -/
def providerCalls : List Event → List (String × TranslationParams)
  | [] => []
  | Event.call text params :: rest => (text, params) :: providerCalls rest
  | _ :: rest => providerCalls rest

/-- The log lines recorded in a trace, in order. -/
def logLines : List Event → List String
  | [] => []
  | Event.log line :: rest => line :: logLines rest
  | _ :: rest => logLines rest

/-- The log line of line 68, present when the renderText call failed. -/
def renderLog (o : Except String String) : List String :=
  match o with
  | .ok _ => []
  | .error err => ["Translation failed for renderText: " ++ err]

/-- The log line of line 80, present when the names call failed; it quotes the
joined names. -/
def namesLog (request : TranslateRequest) (o : Except String String) : List String :=
  match o with
  | .ok _ => []
  | .error err => ["Translation failed for '" ++ namesText request ++ "': " ++ err]

/-- The log line of line 121, present when the writer refused the body. -/
def encodeLog (o : Option String) : List String :=
  match o with
  | none => []
  | some err => ["Failed to encode JSON response: " ++ err]

/-- The error, if any, of the `Encode` call of a run: the writer's answer to the
JSON body of the run; a run that answers through `http.Error` encodes
nothing. -/
def encodeOutcome {σ : Type} (env : Env σ) (run : Run σ) : Option String :=
  match run.response.body with
  | .json data => env.encode data
  | .text _ => none

/-- A request is rejected when one of the three validations of lines 36-51
fails: wrong method, undecodable body, or no colors. -/
def Rejected {σ : Type} (env : Env σ) (r : HttpRequest) : Prop :=
  r.Method ≠ MethodPost ∨ (∃ e, env.decode r.Body = .error e) ∨
    (∃ request, env.decode r.Body = .ok request ∧ request.Colors = [])

/-- The environment of `scriptedEnv` with a writer that refuses every body. -/
def brokenPipeEnv (request : TranslateRequest) : Env (List (Except String String)) :=
  { scriptedEnv request with encode := fun _ => some "write: broken pipe" }

/-- The request `abcRequest` with other names, codes and renderText. -/
def xyzRequest : TranslateRequest :=
  { Colors := [⟨"x", "#111"⟩, ⟨"y", "#222"⟩, ⟨"z", "#333"⟩], To := "xx", RenderText := "choose" }

/-- The text that precedes the first occurrence of `", "` in a list of code
points, the whole list when there is no occurrence. -/
def beforeFirstSep : List Char → List Char
  | [] => []
  | c :: rest => if [',', ' '].isPrefixOf (c :: rest) then [] else c :: beforeFirstSep rest

/-- The function `strings.Contains` on code points: `sub` occurs in the list. -/
def containsChars (sub : List Char) : List Char → Bool
  | [] => sub.isPrefixOf []
  | c :: rest => sub.isPrefixOf (c :: rest) || containsChars sub rest

/-- The function `strings.Contains s substr`. -/
def Contains (s substr : String) : Bool :=
  containsChars substr.data s.data

/-- The function `strings.Join` on code points. -/
def joinChars : List (List Char) → List Char → List Char
  | [], _ => []
  | [a], _ => a
  | a :: b :: rest, sep => a ++ sep ++ joinChars (b :: rest) sep

/-- A provider-side text transformation that maps every code point through
`g`. -/
def mapString (g : Char → Char) (s : String) : String :=
  String.mk (s.data.map g)

/-- A fake provider that maps every code point of its input through `g` and
never fails; the decoder yields `request` for every body and the writer accepts
every body. -/
def mapEnv (g : Char → Char) (request : TranslateRequest) : Env Unit :=
  { decode := fun _ => .ok request
    translate := fun text _ s => (.ok (mapString g text), s)
    encode := fun _ => none }

/-- A provider behaves as the code point map `g` when every call succeeds with
the image of its input. -/
def ProviderMaps {σ : Type} (env : Env σ) (g : Char → Char) : Prop :=
  ∀ (text : String) (params : TranslationParams) (s : σ),
    (env.translate text params s).1 = .ok (mapString g text)

/-- A code point map that fixes the comma and the space but sends `x` to a
comma. -/
def commaForX (c : Char) : Char :=
  if c = 'x' then ',' else c

/-- The three colors of the happy-path scenario. -/
def rgbRequest : TranslateRequest :=
  { Colors := [⟨"red", "#f00"⟩, ⟨"green", "#0f0"⟩, ⟨"blue", "#00f"⟩]
    To := "xx", RenderText := "pick one" }

/-- Two colors whose names contain no comma. -/
def xyRequest : TranslateRequest :=
  { Colors := [⟨"x y", "#111"⟩, ⟨"b", "#222"⟩], To := "xx", RenderText := "hi" }

/-! ## Concurrent handlers and the mutex -/

/-- Where a handler stands with respect to its critical section: outside,
after `translateMutex.Lock()`, or after the provider call and before
`translateMutex.Unlock()`. -/
inductive Phase where
  | outside
  | locked
  | called
deriving DecidableEq, Repr

/-- One event of a handler, read against the program order of lines 61-66 and
73-78: a provider call only right after a lock, an unlock only right after a
provider call, log lines only outside; `none` is a violation. -/
def phaseStep : Option Phase → Event → Option Phase
  | some Phase.outside, Event.log _ => some Phase.outside
  | some Phase.outside, Event.lock => some Phase.locked
  | some Phase.locked, Event.call _ _ => some Phase.called
  | some Phase.called, Event.unlock => some Phase.outside
  | _, _ => none

/-- The phase a handler is in after the events `p`, started outside. -/
def phaseAfter (p : List Event) : Option Phase :=
  p.foldl phaseStep (some Phase.outside)

/-- The events of handler `i` in a schedule of events tagged with the handler
that performs them. -/
def project (i : Nat) (sched : List (Nat × Event)) : List Event :=
  (sched.filter (fun x => x.1 == i)).map Prod.snd

/-- The process-wide `translateMutex` (a `sync.Mutex`) along a schedule: the
state is whether it is locked.  `Lock` returns only when the mutex is unlocked,
so a lock event cannot be scheduled while it is locked; unlocking an unlocked
mutex is a fatal error.  Both are `none`. -/
def mutexStep : Option Bool → Nat × Event → Option Bool
  | some false, (_, Event.lock) => some true
  | some true, (_, Event.lock) => none
  | some true, (_, Event.unlock) => some false
  | some false, (_, Event.unlock) => none
  | st, _ => st

/-- The state of the mutex after a schedule, started unlocked. -/
def mutexAfter (sched : List (Nat × Event)) : Option Bool :=
  sched.foldl mutexStep (some false)

/-- The handler whose lock event is the latest mutex event of the schedule, if
that latest mutex event is a lock. -/
def ownerStep : Option Nat → Nat × Event → Option Nat
  | _, (i, Event.lock) => some i
  | _, (_, Event.unlock) => none
  | o, _ => o

/-- The handler that acquired the mutex last and has not been followed by an
unlock. -/
def csOwner (sched : List (Nat × Event)) : Option Nat :=
  sched.foldl ownerStep none

/-- A schedule is an execution, up to some moment, of the concurrent handlers
whose complete traces are `runs i`: every handler has performed a prefix of its
trace, in order, and the mutex was respected. -/
def IsExecution (runs : Nat → List Event) (sched : List (Nat × Event)) : Prop :=
  mutexAfter sched ≠ none ∧ ∀ i, project i sched <+: runs i

/-- Two concurrent requests: handler 0 serves `abcRequest`, every other handler
serves `crimsonRequest`. -/
def twoRequests (i : Nat) : TranslateRequest :=
  if i = 0 then abcRequest else crimsonRequest

/-- A moment of an execution of two concurrent handlers: they alternate, and
handler 1 is still inside its second provider call. -/
def twoSchedule : List (Nat × Event) :=
  [(0, Event.lock), (0, Event.call "pick one" { From := "auto", To := "xx" }), (0, Event.unlock),
   (1, Event.lock), (1, Event.call "pick one" { From := "auto", To := "yy" }), (1, Event.unlock),
   (0, Event.lock), (0, Event.call "a, b, c" { From := "auto", To := "xx" }), (0, Event.unlock),
   (1, Event.lock), (1, Event.call "crimson" { From := "auto", To := "yy" })]

/-! ## Lemmas on the response loop -/

theorem length_translations (pieces : List String) (colors : List Color) (i : Nat) :
    (translations pieces i colors).length = colors.length := by
  induction colors generalizing i with
  | nil => rfl
  | cons color rest ih => simp [translations, ih]

theorem map_Code_translations (pieces : List String) (colors : List Color) (i : Nat) :
    (translations pieces i colors).map Color.Code = colors.map Color.Code := by
  induction colors generalizing i with
  | nil => rfl
  | cons color rest ih =>
    simp only [translations, List.map_cons, ih]
    split <;> rfl

theorem getElem?_translations (pieces : List String) (colors : List Color) (i j : Nat) :
    (translations pieces i colors)[j]? =
      (colors[j]?).map fun color =>
        if h : i + j < pieces.length then
          ({ Name := TrimSpace pieces[i + j], Code := color.Code } : Color)
        else { Name := color.Name, Code := color.Code } := by
  induction colors generalizing i j with
  | nil => simp [translations]
  | cons color rest ih =>
    cases j with
    | zero => simp [translations]
    | succ j =>
      simp only [translations, List.getElem?_cons_succ, ih]
      have e : i + 1 + j = i + (j + 1) := by omega
      simp only [e]

/-! ## Lemmas on the handler: one per path -/

theorem TranslateHandler_wrong_method {σ : Type} (env : Env σ) (s0 : σ) (r : HttpRequest)
    (hm : r.Method ≠ MethodPost) :
    TranslateHandler env s0 r =
      { response := httpError "Method not allowed" StatusMethodNotAllowed
        trace := [], state := s0 } := by
  simp [TranslateHandler, hm]

theorem TranslateHandler_decode_error {σ : Type} (env : Env σ) (s0 : σ) (r : HttpRequest)
    (e : String) (hm : r.Method = MethodPost) (hd : env.decode r.Body = .error e) :
    TranslateHandler env s0 r =
      { response := (sendErrorResponse env.encode "Invalid request payload" StatusBadRequest).1
        trace := (sendErrorResponse env.encode "Invalid request payload" StatusBadRequest).2
        state := s0 } := by
  simp [TranslateHandler, hm, hd]

theorem TranslateHandler_no_colors {σ : Type} (env : Env σ) (s0 : σ) (r : HttpRequest)
    (request : TranslateRequest) (hm : r.Method = MethodPost)
    (hd : env.decode r.Body = .ok request) (hc : request.Colors = []) :
    TranslateHandler env s0 r =
      { response := (sendErrorResponse env.encode "No colors to translate" StatusBadRequest).1
        trace := (sendErrorResponse env.encode "No colors to translate" StatusBadRequest).2
        state := s0 } := by
  simp [TranslateHandler, hm, hd, hc]

theorem TranslateHandler_accepted {σ : Type} (env : Env σ) (s0 : σ) (r : HttpRequest)
    (request : TranslateRequest) (hacc : Accepted env r request) :
    TranslateHandler env s0 r = translateAccepted env s0 request := by
  obtain ⟨hm, hd, hc⟩ := hacc
  have hlen : request.Colors.length ≠ 0 := by
    intro h
    exact hc (List.length_eq_zero.mp h)
  simp [TranslateHandler, hm, hd, hlen]

theorem translateAccepted_response {σ : Type} (env : Env σ) (s0 : σ)
    (request : TranslateRequest) :
    (translateAccepted env s0 request).response =
      (sendJSONResponse env.encode
        { Colors := translations
            (Split (splitInput request (namesOutcome env s0 request)) ", ") 0 request.Colors
          RenderText := renderResult request (renderOutcome env s0 request)
          Status := true
          Message := "Translations completed" } StatusOK).1 := by
  simp only [translateAccepted, namesOutcome, renderOutcome, namesText, callParams]
  cases h1 : (env.translate request.RenderText { From := "auto", To := request.To } s0).1 <;>
    cases h2 : (env.translate (Join (request.Colors.map Color.Name) ", ")
      { From := "auto", To := request.To }
      (env.translate request.RenderText { From := "auto", To := request.To } s0).2).1 <;>
    simp [splitInput, renderResult, namesText]

/-- The response of an accepted run, in closed form. -/
theorem TranslateHandler_accepted_response {σ : Type} (env : Env σ) (s0 : σ) (r : HttpRequest)
    (request : TranslateRequest) (hacc : Accepted env r request) :
    (TranslateHandler env s0 r).response =
      (sendJSONResponse env.encode
        { Colors := translations
            (Split (splitInput request (namesOutcome env s0 request)) ", ") 0 request.Colors
          RenderText := renderResult request (renderOutcome env s0 request)
          Status := true
          Message := "Translations completed" } StatusOK).1 := by
  rw [TranslateHandler_accepted env s0 r request hacc, translateAccepted_response]

/-- A JSON body with status true is only produced by the accepted path. -/
theorem accepted_of_status_true {σ : Type} (env : Env σ) (s0 : σ) (r : HttpRequest)
    (resp : TranslateResponse)
    (hbody : (TranslateHandler env s0 r).response.body = .json resp)
    (hst : resp.Status = true) :
    ∃ request, Accepted env r request := by
  by_cases hm : r.Method = MethodPost
  · cases hd : env.decode r.Body with
    | error e =>
      rw [TranslateHandler_decode_error env s0 r e hm hd] at hbody
      simp [sendErrorResponse, sendJSONResponse] at hbody
      rw [← hbody] at hst
      simp at hst
    | ok request =>
      by_cases hc : request.Colors = []
      · rw [TranslateHandler_no_colors env s0 r request hm hd hc] at hbody
        simp [sendErrorResponse, sendJSONResponse] at hbody
        rw [← hbody] at hst
        simp at hst
      · exact ⟨request, hm, hd, hc⟩
  · rw [TranslateHandler_wrong_method env s0 r hm] at hbody
    simp [httpError] at hbody

/-! ## The claims -/

/-- C1 (unpack rule). For an accepted request whose names call succeeds with
the string `s`, the response is a JSON body with as many colors as the request,
and at every index `i` below that number the response name is the trimmed
`i`-th piece of `s` split on `", "` when there is such a piece, and the
original name otherwise; pieces from index N on are not used. -/
theorem C1_unpack_rule {σ : Type} (env : Env σ) (s0 : σ) (r : HttpRequest)
    (request : TranslateRequest) (s : String)
    (hacc : Accepted env r request)
    (hs : namesOutcome env s0 request = .ok s) :
    ∃ resp, (TranslateHandler env s0 r).response.body = .json resp ∧
      resp.Colors.length = request.Colors.length ∧
      ∀ (i : Nat) (hi : i < request.Colors.length),
        (resp.Colors[i]?).map Color.Name =
          some (if h : i < (Split s ", ").length then TrimSpace (Split s ", ")[i]
                else request.Colors[i].Name) := by
  refine ⟨_, by rw [TranslateHandler_accepted_response env s0 r request hacc]; rfl, ?_, ?_⟩
  · exact length_translations _ _ _
  · intro i hi
    simp only [hs, splitInput, getElem?_translations, List.getElem?_eq_getElem hi,
      Option.map_some', Nat.zero_add]
    split <;> rfl

/-- C1, the scenario of the claim: names a, b, c and provider output `A B C`
give the names `A B C`, b, c. -/
theorem C1_unpack_rule_witness :
    Accepted (scriptedEnv abcRequest) ⟨"POST", ""⟩ abcRequest ∧
    namesOutcome (scriptedEnv abcRequest) [.ok "PICK ONE", .ok "A B C"] abcRequest
      = .ok "A B C" ∧
    (TranslateHandler (scriptedEnv abcRequest) [.ok "PICK ONE", .ok "A B C"]
        ⟨"POST", ""⟩).response.body =
      .json { Colors := [⟨"A B C", "#f00"⟩, ⟨"b", "#0f0"⟩, ⟨"c", "#00f"⟩]
              RenderText := "PICK ONE", Status := true
              Message := "Translations completed" } ∧
    ∃ resp, (TranslateHandler (scriptedEnv abcRequest) [.ok "PICK ONE", .ok "A B C"]
        ⟨"POST", ""⟩).response.body = .json resp ∧
      resp.Colors.length = abcRequest.Colors.length ∧
      ∀ (i : Nat) (hi : i < abcRequest.Colors.length),
        (resp.Colors[i]?).map Color.Name =
          some (if h : i < (Split "A B C" ", ").length then TrimSpace (Split "A B C" ", ")[i]
                else abcRequest.Colors[i].Name) :=
  ⟨⟨rfl, rfl, by decide⟩, rfl, by decide,
    C1_unpack_rule (scriptedEnv abcRequest) [.ok "PICK ONE", .ok "A B C"] ⟨"POST", ""⟩
      abcRequest "A B C" ⟨rfl, rfl, by decide⟩ rfl⟩

/-- C2 (length preservation). Whenever the handler answers with a body whose
status is true, the body decoded to a request and the response has exactly as
many colors as that request, whatever the provider does. -/
theorem C2_length_preservation {σ : Type} (env : Env σ) (s0 : σ) (r : HttpRequest)
    (resp : TranslateResponse)
    (hbody : (TranslateHandler env s0 r).response.body = .json resp)
    (hst : resp.Status = true) :
    ∃ request, env.decode r.Body = .ok request ∧
      resp.Colors.length = request.Colors.length := by
  obtain ⟨request, hacc⟩ := accepted_of_status_true env s0 r resp hbody hst
  refine ⟨request, hacc.2.1, ?_⟩
  rw [TranslateHandler_accepted_response env s0 r request hacc] at hbody
  simp only [sendJSONResponse, ResponseBody.json.injEq] at hbody
  rw [← hbody]
  exact length_translations _ _ _

/-- C2 at three colors, with the provider dropping the delimiters in the names
batch and failing on renderText. -/
theorem C2_length_preservation_witness :
    (TranslateHandler (scriptedEnv abcRequest) [.error "timeout", .ok "A B C"]
        ⟨"POST", ""⟩).response.body =
      .json { Colors := [⟨"A B C", "#f00"⟩, ⟨"b", "#0f0"⟩, ⟨"c", "#00f"⟩]
              RenderText := "pick one", Status := true
              Message := "Translations completed" } ∧
    ∃ request, (scriptedEnv abcRequest).decode "" = .ok request ∧
      [(⟨"A B C", "#f00"⟩ : Color), ⟨"b", "#0f0"⟩, ⟨"c", "#00f"⟩].length
        = request.Colors.length :=
  ⟨by decide,
    C2_length_preservation (scriptedEnv abcRequest) [.error "timeout", .ok "A B C"]
      ⟨"POST", ""⟩
      { Colors := [⟨"A B C", "#f00"⟩, ⟨"b", "#0f0"⟩, ⟨"c", "#00f"⟩]
        RenderText := "pick one", Status := true, Message := "Translations completed" }
      (by decide) rfl⟩

/-- C3 (code pass-through). Whenever the handler answers with a body whose
status is true, the body decoded to a request and the codes of the response, in
order, are the codes of that request, in order: at every index the response
code is the request code, whatever the provider does. -/
theorem C3_code_pass_through {σ : Type} (env : Env σ) (s0 : σ) (r : HttpRequest)
    (resp : TranslateResponse)
    (hbody : (TranslateHandler env s0 r).response.body = .json resp)
    (hst : resp.Status = true) :
    ∃ request, env.decode r.Body = .ok request ∧
      resp.Colors.map Color.Code = request.Colors.map Color.Code ∧
      ∀ i : Nat, (resp.Colors[i]?).map Color.Code = (request.Colors[i]?).map Color.Code := by
  obtain ⟨request, hacc⟩ := accepted_of_status_true env s0 r resp hbody hst
  rw [TranslateHandler_accepted_response env s0 r request hacc] at hbody
  simp only [sendJSONResponse, ResponseBody.json.injEq] at hbody
  have hmap : resp.Colors.map Color.Code = request.Colors.map Color.Code := by
    rw [← hbody]
    exact map_Code_translations _ _ _
  refine ⟨request, hacc.2.1, hmap, ?_⟩
  intro i
  rw [← List.getElem?_map, ← List.getElem?_map, hmap]

/-- C3 at three colors, with a provider that returns more pieces than colors,
some of them looking like codes. -/
theorem C3_code_pass_through_witness :
    (TranslateHandler (scriptedEnv abcRequest) [.ok "#fff", .ok "#000, #111, #222, #333"]
        ⟨"POST", ""⟩).response.body =
      .json { Colors := [⟨"#000", "#f00"⟩, ⟨"#111", "#0f0"⟩, ⟨"#222", "#00f"⟩]
              RenderText := "#fff", Status := true
              Message := "Translations completed" } ∧
    ∃ request, (scriptedEnv abcRequest).decode "" = .ok request ∧
      [(⟨"#000", "#f00"⟩ : Color), ⟨"#111", "#0f0"⟩, ⟨"#222", "#00f"⟩].map Color.Code
        = request.Colors.map Color.Code ∧
      ∀ i : Nat,
        ([(⟨"#000", "#f00"⟩ : Color), ⟨"#111", "#0f0"⟩, ⟨"#222", "#00f"⟩][i]?).map Color.Code
          = (request.Colors[i]?).map Color.Code :=
  ⟨by decide,
    C3_code_pass_through (scriptedEnv abcRequest) [.ok "#fff", .ok "#000, #111, #222, #333"]
      ⟨"POST", ""⟩
      { Colors := [⟨"#000", "#f00"⟩, ⟨"#111", "#0f0"⟩, ⟨"#222", "#00f"⟩]
        RenderText := "#fff", Status := true, Message := "Translations completed" }
      (by decide) rfl⟩

/-- C4 (names fallback, defect of the code). After a failed names call the
handler does not return the original names: it joins them, splits the joined
text on `", "` again and trims every piece.  With the single name ` red`
(leading space) and a failing names call, the response name is `red`. -/
theorem C4_names_fallback_alters_name :
    Accepted (scriptedEnv spacedRequest) ⟨"POST", ""⟩ spacedRequest ∧
    namesOutcome (scriptedEnv spacedRequest) [.ok "HI", .error "timeout"] spacedRequest
      = .error "timeout" ∧
    (TranslateHandler (scriptedEnv spacedRequest) [.ok "HI", .error "timeout"]
        ⟨"POST", ""⟩).response.body =
      .json { Colors := [⟨"red", "#f00"⟩], RenderText := "HI", Status := true
              Message := "Translations completed" } ∧
    spacedRequest.Colors.map Color.Name = [" red"] :=
  ⟨⟨rfl, rfl, by decide⟩, rfl, by decide, rfl⟩

/-- C5 (renderText handling). For an accepted request, the response renderText
is the original renderText when the renderText call fails and exactly the
provider's output when it succeeds; a second accepted run with the same
renderText and the same outcome of the renderText call, whatever its colors,
target language, provider and outcome of the names call, has the same response
renderText. -/
theorem C5_renderText {σ τ : Type} (env : Env σ) (s0 : σ) (r : HttpRequest)
    (request : TranslateRequest) (env2 : Env τ) (t0 : τ) (r2 : HttpRequest)
    (request2 : TranslateRequest)
    (hacc : Accepted env r request) (hacc2 : Accepted env2 r2 request2)
    (htext : request2.RenderText = request.RenderText)
    (hout : renderOutcome env2 t0 request2 = renderOutcome env s0 request) :
    ∃ resp resp2,
      (TranslateHandler env s0 r).response.body = .json resp ∧
      (TranslateHandler env2 t0 r2).response.body = .json resp2 ∧
      (∀ e, renderOutcome env s0 request = .error e → resp.RenderText = request.RenderText) ∧
      (∀ t, renderOutcome env s0 request = .ok t → resp.RenderText = t) ∧
      resp2.RenderText = resp.RenderText := by
  refine ⟨_, _, by rw [TranslateHandler_accepted_response env s0 r request hacc]; rfl,
    by rw [TranslateHandler_accepted_response env2 t0 r2 request2 hacc2]; rfl, ?_, ?_, ?_⟩
  · intro e he
    simp [he, renderResult]
  · intro t ht
    simp [ht, renderResult]
  · simp only [hout]
    cases renderOutcome env s0 request <;> simp [renderResult, htext]

/-- C5 on two runs: three colors with a successful names call, one color with a
failing names call; the renderText call fails in both and both answer with the
original renderText. -/
theorem C5_renderText_witness :
    Accepted (scriptedEnv abcRequest) ⟨"POST", ""⟩ abcRequest ∧
    Accepted (scriptedEnv crimsonRequest) ⟨"POST", "[1, 2]"⟩ crimsonRequest ∧
    (TranslateHandler (scriptedEnv abcRequest) [.error "timeout", .ok "A, B, C"]
        ⟨"POST", ""⟩).response.body =
      .json { Colors := [⟨"A", "#f00"⟩, ⟨"B", "#0f0"⟩, ⟨"C", "#00f"⟩]
              RenderText := "pick one", Status := true
              Message := "Translations completed" } ∧
    ∃ resp resp2,
      (TranslateHandler (scriptedEnv abcRequest) [.error "timeout", .ok "A, B, C"]
        ⟨"POST", ""⟩).response.body = .json resp ∧
      (TranslateHandler (scriptedEnv crimsonRequest) [.error "timeout", .error "timeout"]
        ⟨"POST", "[1, 2]"⟩).response.body = .json resp2 ∧
      (∀ e, renderOutcome (scriptedEnv abcRequest) [.error "timeout", .ok "A, B, C"] abcRequest
          = .error e → resp.RenderText = abcRequest.RenderText) ∧
      (∀ t, renderOutcome (scriptedEnv abcRequest) [.error "timeout", .ok "A, B, C"] abcRequest
          = .ok t → resp.RenderText = t) ∧
      resp2.RenderText = resp.RenderText :=
  ⟨⟨rfl, rfl, by decide⟩, ⟨rfl, rfl, by decide⟩, by decide,
    C5_renderText (scriptedEnv abcRequest) [.error "timeout", .ok "A, B, C"] ⟨"POST", ""⟩
      abcRequest (scriptedEnv crimsonRequest) [.error "timeout", .error "timeout"]
      ⟨"POST", "[1, 2]"⟩ crimsonRequest ⟨rfl, rfl, by decide⟩ ⟨rfl, rfl, by decide⟩ rfl rfl⟩

/-- C6 (upstream failures are absorbed). For every accepted request and every
provider, the handler answers HTTP 200 with a JSON body whose status is true and
whose message is `Translations completed`. -/
theorem C6_upstream_failures_absorbed {σ : Type} (env : Env σ) (s0 : σ) (r : HttpRequest)
    (request : TranslateRequest) (hacc : Accepted env r request) :
    (TranslateHandler env s0 r).response.statusCode = 200 ∧
    ∃ resp, (TranslateHandler env s0 r).response.body = .json resp ∧
      resp.Status = true ∧ resp.Message = "Translations completed" := by
  rw [TranslateHandler_accepted_response env s0 r request hacc]
  exact ⟨rfl, _, rfl, rfl, rfl⟩

/-- C6 with both provider calls failing. -/
theorem C6_upstream_failures_absorbed_witness :
    Accepted (scriptedEnv abcRequest) ⟨"POST", ""⟩ abcRequest ∧
    renderOutcome (scriptedEnv abcRequest) [] abcRequest = .error "no more outcomes" ∧
    namesOutcome (scriptedEnv abcRequest) [] abcRequest = .error "no more outcomes" ∧
    (TranslateHandler (scriptedEnv abcRequest) [] ⟨"POST", ""⟩).response.statusCode = 200 ∧
    ∃ resp, (TranslateHandler (scriptedEnv abcRequest) [] ⟨"POST", ""⟩).response.body
        = .json resp ∧
      resp.Status = true ∧ resp.Message = "Translations completed" :=
  ⟨⟨rfl, rfl, by decide⟩, rfl, rfl,
    C6_upstream_failures_absorbed (scriptedEnv abcRequest) [] ⟨"POST", ""⟩ abcRequest
      ⟨rfl, rfl, by decide⟩⟩

/-- C7 (empty-colors rejection). A POST request whose body decodes to a request
with no colors is answered with HTTP 400 and a JSON body with status false,
message `No colors to translate`, no colors and an empty renderText, whatever
the request's target language and renderText. -/
theorem C7_empty_colors_rejection {σ : Type} (env : Env σ) (s0 : σ) (r : HttpRequest)
    (request : TranslateRequest) (hm : r.Method = MethodPost)
    (hd : env.decode r.Body = .ok request) (hc : request.Colors = []) :
    (TranslateHandler env s0 r).response.statusCode = 400 ∧
    (TranslateHandler env s0 r).response.body =
      .json { Colors := [], RenderText := "", Status := false
              Message := "No colors to translate" } := by
  rw [TranslateHandler_no_colors env s0 r request hm hd hc]
  exact ⟨rfl, rfl⟩

/-- C7 on the request with no colors, target `xx` and renderText `hi`. -/
theorem C7_empty_colors_rejection_witness :
    (TranslateHandler (scriptedEnv emptyRequest) [.ok "HI", .ok ""]
        ⟨"POST", ""⟩).response.statusCode = 400 ∧
    (TranslateHandler (scriptedEnv emptyRequest) [.ok "HI", .ok ""]
        ⟨"POST", ""⟩).response.body =
      .json { Colors := [], RenderText := "", Status := false
              Message := "No colors to translate" } :=
  C7_empty_colors_rejection (scriptedEnv emptyRequest) [.ok "HI", .ok ""] ⟨"POST", ""⟩
    emptyRequest rfl rfl rfl

/-- C8 (method gate). A request whose method is not POST is answered with HTTP
405, whatever the decoder would make of its body and whatever the provider
would do. -/
theorem C8_method_gate {σ : Type} (env : Env σ) (s0 : σ) (r : HttpRequest)
    (hm : r.Method ≠ MethodPost) :
    (TranslateHandler env s0 r).response.statusCode = 405 := by
  rw [TranslateHandler_wrong_method env s0 r hm]
  rfl

/-- C8 on GET requests: one whose body would decode to three colors, one whose
body would decode to no colors, one whose body does not decode. -/
theorem C8_method_gate_witness :
    (TranslateHandler (scriptedEnv abcRequest) [.ok "x", .ok "y"]
        ⟨"GET", ""⟩).response.statusCode = 405 ∧
    (TranslateHandler (scriptedEnv emptyRequest) [.ok "x", .ok "y"]
        ⟨"GET", ""⟩).response.statusCode = 405 ∧
    (TranslateHandler rejectingEnv () ⟨"GET", "<html>"⟩).response.statusCode = 405 :=
  ⟨C8_method_gate (scriptedEnv abcRequest) [.ok "x", .ok "y"] ⟨"GET", ""⟩ (by decide),
    C8_method_gate (scriptedEnv emptyRequest) [.ok "x", .ok "y"] ⟨"GET", ""⟩ (by decide),
    C8_method_gate rejectingEnv () ⟨"GET", "<html>"⟩ (by decide)⟩

/-- C9 (malformed-body rejection). A POST request whose body fails to decode is
answered with HTTP 400 and a JSON body with status false, message
`Invalid request payload`, no colors and an empty renderText; that message
differs from the message of every empty-colors rejection. -/
theorem C9_malformed_body_rejection {σ : Type} (env : Env σ) (s0 : σ) (r : HttpRequest)
    (e : String) (hm : r.Method = MethodPost) (hd : env.decode r.Body = .error e) :
    (TranslateHandler env s0 r).response.statusCode = 400 ∧
    (TranslateHandler env s0 r).response.body =
      .json { Colors := [], RenderText := "", Status := false
              Message := "Invalid request payload" } ∧
    ∀ {τ : Type} (env2 : Env τ) (t0 : τ) (r2 : HttpRequest) (request : TranslateRequest),
      r2.Method = MethodPost → env2.decode r2.Body = .ok request → request.Colors = [] →
      ∃ resp resp2, (TranslateHandler env s0 r).response.body = .json resp ∧
        (TranslateHandler env2 t0 r2).response.body = .json resp2 ∧
        resp.Message ≠ resp2.Message := by
  rw [TranslateHandler_decode_error env s0 r e hm hd]
  refine ⟨rfl, rfl, ?_⟩
  intro τ env2 t0 r2 request hm2 hd2 hc2
  rw [TranslateHandler_no_colors env2 t0 r2 request hm2 hd2 hc2]
  exact ⟨_, _, rfl, rfl, by decide⟩

/-- C9 on a POST request whose body is not JSON, compared with the rejection of
a POST request without colors. -/
theorem C9_malformed_body_rejection_witness :
    (TranslateHandler rejectingEnv () ⟨"POST", "<html>"⟩).response.statusCode = 400 ∧
    (TranslateHandler rejectingEnv () ⟨"POST", "<html>"⟩).response.body =
      .json { Colors := [], RenderText := "", Status := false
              Message := "Invalid request payload" } ∧
    ∃ resp resp2, (TranslateHandler rejectingEnv () ⟨"POST", "<html>"⟩).response.body
        = .json resp ∧
      (TranslateHandler (scriptedEnv emptyRequest) [] ⟨"POST", ""⟩).response.body
        = .json resp2 ∧
      resp.Message ≠ resp2.Message :=
  ⟨(C9_malformed_body_rejection rejectingEnv () ⟨"POST", "<html>"⟩
      "invalid character" rfl rfl).1,
    (C9_malformed_body_rejection rejectingEnv () ⟨"POST", "<html>"⟩
      "invalid character" rfl rfl).2.1,
    (C9_malformed_body_rejection rejectingEnv () ⟨"POST", "<html>"⟩
      "invalid character" rfl rfl).2.2
      (scriptedEnv emptyRequest) [] ⟨"POST", ""⟩ emptyRequest rfl rfl rfl⟩

/-- C10, as stated, fails: a GET request is answered with HTTP 405 and the
plain text `Method not allowed` followed by a newline, written by `http.Error`;
that body is not a TranslateResponse, so no status field mirrors the HTTP
status. -/
theorem C10_status_mirror_counterexample :
    (TranslateHandler rejectingEnv () ⟨"GET", ""⟩).response.statusCode = 405 ∧
    (TranslateHandler rejectingEnv () ⟨"GET", ""⟩).response.body
      = .text "Method not allowed\n" ∧
    ¬ StatusMirrorsHTTP (TranslateHandler rejectingEnv () ⟨"GET", ""⟩).response := by
  refine ⟨rfl, by decide, ?_⟩
  rintro ⟨data, hbody, -, -⟩
  rw [TranslateHandler_wrong_method rejectingEnv () ⟨"GET", ""⟩ (by decide)] at hbody
  simp [httpError] at hbody

/-- C10, amended. For every request, either the method is POST and the body is
a TranslateResponse whose status is true with HTTP 200 or false with HTTP 400
(no other HTTP status occurs), so that the status field mirrors the HTTP
status; or the method is not POST and the answer is HTTP 405 with the
plain-text body `Method not allowed` followed by a newline. -/
theorem C10_status_mirror_amended {σ : Type} (env : Env σ) (s0 : σ) (r : HttpRequest) :
    (r.Method = MethodPost ∧
      StatusMirrorsHTTP (TranslateHandler env s0 r).response ∧
      ∃ data, (TranslateHandler env s0 r).response.body = .json data ∧
        (((TranslateHandler env s0 r).response.statusCode = 200 ∧ data.Status = true) ∨
         ((TranslateHandler env s0 r).response.statusCode = 400 ∧ data.Status = false))) ∨
    (r.Method ≠ MethodPost ∧
      (TranslateHandler env s0 r).response.statusCode = 405 ∧
      (TranslateHandler env s0 r).response.body = .text "Method not allowed\n") := by
  by_cases hm : r.Method = MethodPost
  · left
    refine ⟨hm, ?_⟩
    cases hd : env.decode r.Body with
    | error e =>
      rw [TranslateHandler_decode_error env s0 r e hm hd]
      refine ⟨⟨_, rfl, fun h => ?_, fun _ => rfl⟩, _, rfl, Or.inr ⟨rfl, rfl⟩⟩
      have h2 : (400 : Nat) = 200 := h
      exact absurd h2 (by decide)
    | ok request =>
      by_cases hc : request.Colors = []
      · rw [TranslateHandler_no_colors env s0 r request hm hd hc]
        refine ⟨⟨_, rfl, fun h => ?_, fun _ => rfl⟩, _, rfl, Or.inr ⟨rfl, rfl⟩⟩
        have h2 : (400 : Nat) = 200 := h
        exact absurd h2 (by decide)
      · rw [TranslateHandler_accepted_response env s0 r request ⟨hm, hd, hc⟩]
        refine ⟨⟨_, rfl, fun _ => rfl, fun h => ?_⟩, _, rfl, Or.inl ⟨rfl, rfl⟩⟩
        have h2 : (400 : Nat) ≤ 200 := h
        exact absurd h2 (by decide)
  · right
    rw [TranslateHandler_wrong_method env s0 r hm]
    refine ⟨hm, rfl, ?_⟩
    show ResponseBody.text ("Method not allowed" ++ "\n") = ResponseBody.text "Method not allowed\n"
    decide

/-! ## Lemmas on traces -/

theorem providerCalls_append (xs ys : List Event) :
    providerCalls (xs ++ ys) = providerCalls xs ++ providerCalls ys := by
  induction xs with
  | nil => rfl
  | cons x rest ih => cases x <;> simp [providerCalls, ih]

theorem logLines_append (xs ys : List Event) :
    logLines (xs ++ ys) = logLines xs ++ logLines ys := by
  induction xs with
  | nil => rfl
  | cons x rest ih => cases x <;> simp [logLines, ih]

theorem providerCalls_sendJSONResponse (w : TranslateResponse → Option String)
    (data : TranslateResponse) (statusCode : Nat) :
    providerCalls (sendJSONResponse w data statusCode).2 = [] := by
  unfold sendJSONResponse
  cases w data <;> rfl

theorem logLines_sendJSONResponse (w : TranslateResponse → Option String)
    (data : TranslateResponse) (statusCode : Nat) :
    logLines (sendJSONResponse w data statusCode).2 = encodeLog (w data) := by
  unfold sendJSONResponse
  cases w data <;> rfl

/-- The provider calls of an accepted run. -/
theorem translateAccepted_calls {σ : Type} (env : Env σ) (s0 : σ)
    (request : TranslateRequest) :
    providerCalls (translateAccepted env s0 request).trace =
      [(request.RenderText, callParams request), (namesText request, callParams request)] := by
  simp only [translateAccepted, namesText, callParams, providerCalls_append,
    providerCalls_sendJSONResponse]
  cases (env.translate request.RenderText { From := "auto", To := request.To } s0).1 <;>
    cases (env.translate (Join (request.Colors.map Color.Name) ", ")
      { From := "auto", To := request.To }
      (env.translate request.RenderText { From := "auto", To := request.To } s0).2).1 <;>
    simp [providerCalls]

/-- The log lines of an accepted run, in closed form. -/
theorem translateAccepted_logs {σ : Type} (env : Env σ) (s0 : σ)
    (request : TranslateRequest) :
    logLines (translateAccepted env s0 request).trace =
      renderLog (renderOutcome env s0 request) ++ namesLog request (namesOutcome env s0 request)
        ++ encodeLog (encodeOutcome env (translateAccepted env s0 request)) := by
  have hbody : encodeOutcome env (translateAccepted env s0 request) =
      env.encode
        { Colors := translations
            (Split (splitInput request (namesOutcome env s0 request)) ", ") 0 request.Colors
          RenderText := renderResult request (renderOutcome env s0 request)
          Status := true
          Message := "Translations completed" } := by
    simp only [encodeOutcome, translateAccepted_response]
    rfl
  rw [hbody]
  simp only [translateAccepted, namesOutcome, renderOutcome, namesText, callParams,
    logLines_append, logLines_sendJSONResponse]
  cases h1 : (env.translate request.RenderText { From := "auto", To := request.To } s0).1 <;>
    cases h2 : (env.translate (Join (request.Colors.map Color.Name) ", ")
      { From := "auto", To := request.To }
      (env.translate request.RenderText { From := "auto", To := request.To } s0).2).1 <;>
    simp [logLines, renderLog, namesLog, splitInput, renderResult, namesText]

/-- The provider state after an accepted run: the state left by the names call
made in the state left by the renderText call. -/
theorem translateAccepted_state {σ : Type} (env : Env σ) (s0 : σ)
    (request : TranslateRequest) :
    (translateAccepted env s0 request).state =
      (env.translate (namesText request) (callParams request)
        (env.translate request.RenderText (callParams request) s0).2).2 := by
  simp only [translateAccepted, namesText, callParams]

/-- The trace, the log lines and the provider state of a rejected run. -/
theorem TranslateHandler_rejected {σ : Type} (env : Env σ) (s0 : σ) (r : HttpRequest)
    (hrej : Rejected env r) :
    providerCalls (TranslateHandler env s0 r).trace = [] ∧
    (TranslateHandler env s0 r).state = s0 ∧
    logLines (TranslateHandler env s0 r).trace =
      encodeLog (encodeOutcome env (TranslateHandler env s0 r)) := by
  by_cases hm : r.Method = MethodPost
  · rcases hrej with h | ⟨e, hd⟩ | ⟨request, hd, hc⟩
    · exact absurd hm h
    · rw [TranslateHandler_decode_error env s0 r e hm hd]
      exact ⟨providerCalls_sendJSONResponse env.encode _ StatusBadRequest, rfl,
        logLines_sendJSONResponse env.encode _ StatusBadRequest⟩
    · rw [TranslateHandler_no_colors env s0 r request hm hd hc]
      exact ⟨providerCalls_sendJSONResponse env.encode _ StatusBadRequest, rfl,
        logLines_sendJSONResponse env.encode _ StatusBadRequest⟩
  · rw [TranslateHandler_wrong_method env s0 r hm]
    exact ⟨rfl, rfl, rfl⟩

/-! ## The claims on calls and logs -/

/-- C14 (provider calls of an accepted request). An accepted run makes exactly
two provider calls, whatever the provider answers: first with the request's
renderText, then with the names joined by a comma and one space, in request
order; both with `from` set to `auto` and `to` set to the request's target.
The provider ends in the state left by the second call made after the first. -/
theorem C14_provider_calls {σ : Type} (env : Env σ) (s0 : σ) (r : HttpRequest)
    (request : TranslateRequest) (hacc : Accepted env r request) :
    providerCalls (TranslateHandler env s0 r).trace =
      [(request.RenderText, { From := "auto", To := request.To }),
       (Join (request.Colors.map Color.Name) ", ", { From := "auto", To := request.To })] ∧
    (TranslateHandler env s0 r).state =
      (env.translate (Join (request.Colors.map Color.Name) ", ")
        { From := "auto", To := request.To }
        (env.translate request.RenderText { From := "auto", To := request.To } s0).2).2 := by
  rw [TranslateHandler_accepted env s0 r request hacc]
  exact ⟨translateAccepted_calls env s0 request, translateAccepted_state env s0 request⟩

/-- C14 on three colors, with the renderText call failing: the names call is
made all the same, with the text `a, b, c`. -/
theorem C14_provider_calls_witness :
    Accepted (scriptedEnv abcRequest) ⟨"POST", ""⟩ abcRequest ∧
    renderOutcome (scriptedEnv abcRequest) [.error "timeout", .ok "A, B, C"] abcRequest
      = .error "timeout" ∧
    providerCalls (TranslateHandler (scriptedEnv abcRequest)
        [.error "timeout", .ok "A, B, C"] ⟨"POST", ""⟩).trace =
      [("pick one", { From := "auto", To := "xx" }), ("a, b, c", { From := "auto", To := "xx" })] ∧
    (providerCalls (TranslateHandler (scriptedEnv abcRequest)
        [.error "timeout", .ok "A, B, C"] ⟨"POST", ""⟩).trace =
      [(abcRequest.RenderText, { From := "auto", To := abcRequest.To }),
       (Join (abcRequest.Colors.map Color.Name) ", ", { From := "auto", To := abcRequest.To })] ∧
    (TranslateHandler (scriptedEnv abcRequest)
        [.error "timeout", .ok "A, B, C"] ⟨"POST", ""⟩).state =
      ((scriptedEnv abcRequest).translate (Join (abcRequest.Colors.map Color.Name) ", ")
        { From := "auto", To := abcRequest.To }
        ((scriptedEnv abcRequest).translate abcRequest.RenderText
          { From := "auto", To := abcRequest.To } [.error "timeout", .ok "A, B, C"]).2).2) :=
  ⟨⟨rfl, rfl, by decide⟩, rfl, by decide,
    C14_provider_calls (scriptedEnv abcRequest) [.error "timeout", .ok "A, B, C"]
      ⟨"POST", ""⟩ abcRequest ⟨rfl, rfl, by decide⟩⟩

/-- C15, as stated, fails: two accepted requests of the same shape, handled
under the same provider outcomes (renderText translated, names call failing
with the same error), get different log lines, because the log line of a failed
names call quotes the joined color names. -/
theorem C15_logs_counterexample :
    Accepted (scriptedEnv abcRequest) ⟨"POST", ""⟩ abcRequest ∧
    Accepted (scriptedEnv xyzRequest) ⟨"POST", ""⟩ xyzRequest ∧
    renderOutcome (scriptedEnv abcRequest) [.ok "T", .error "timeout"] abcRequest =
      renderOutcome (scriptedEnv xyzRequest) [.ok "T", .error "timeout"] xyzRequest ∧
    namesOutcome (scriptedEnv abcRequest) [.ok "T", .error "timeout"] abcRequest =
      namesOutcome (scriptedEnv xyzRequest) [.ok "T", .error "timeout"] xyzRequest ∧
    logLines (TranslateHandler (scriptedEnv abcRequest) [.ok "T", .error "timeout"]
        ⟨"POST", ""⟩).trace = ["Translation failed for 'a, b, c': timeout"] ∧
    logLines (TranslateHandler (scriptedEnv xyzRequest) [.ok "T", .error "timeout"]
        ⟨"POST", ""⟩).trace = ["Translation failed for 'x, y, z': timeout"] ∧
    logLines (TranslateHandler (scriptedEnv abcRequest) [.ok "T", .error "timeout"]
        ⟨"POST", ""⟩).trace ≠
      logLines (TranslateHandler (scriptedEnv xyzRequest) [.ok "T", .error "timeout"]
        ⟨"POST", ""⟩).trace :=
  ⟨⟨rfl, rfl, by decide⟩, ⟨rfl, rfl, by decide⟩, rfl, rfl, by decide, by decide, by decide⟩

/-- C15, amended. The log lines of an accepted run are, in order: the line
`Translation failed for renderText:` with the error when the renderText call
failed, the line `Translation failed for` with the joined color names in quotes
and the error when the names call failed, and the line
`Failed to encode JSON response:` with the error when the writer refused the
body; errors are logged as the provider or the writer gave them.  Hence two
accepted requests handled under the same outcomes (same result of the
renderText call, of the names call and of the writer, error strings included)
get the same log lines provided the names call succeeds or the two requests
have the same joined names. -/
theorem C15_logs_amended {σ τ : Type} (env : Env σ) (s0 : σ) (r : HttpRequest)
    (request : TranslateRequest) (env2 : Env τ) (t0 : τ) (r2 : HttpRequest)
    (request2 : TranslateRequest)
    (hacc : Accepted env r request) (hacc2 : Accepted env2 r2 request2)
    (hrender : renderOutcome env2 t0 request2 = renderOutcome env s0 request)
    (hnames : namesOutcome env2 t0 request2 = namesOutcome env s0 request)
    (hwriter : encodeOutcome env2 (TranslateHandler env2 t0 r2) =
      encodeOutcome env (TranslateHandler env s0 r))
    (hsame : (∃ t, namesOutcome env s0 request = .ok t) ∨
      Join (request2.Colors.map Color.Name) ", " = Join (request.Colors.map Color.Name) ", ") :
    logLines (TranslateHandler env s0 r).trace =
      renderLog (renderOutcome env s0 request)
        ++ namesLog request (namesOutcome env s0 request)
        ++ encodeLog (encodeOutcome env (TranslateHandler env s0 r)) ∧
    logLines (TranslateHandler env2 t0 r2).trace =
      logLines (TranslateHandler env s0 r).trace := by
  rw [TranslateHandler_accepted env s0 r request hacc] at hwriter ⊢
  rw [TranslateHandler_accepted env2 t0 r2 request2 hacc2] at hwriter ⊢
  refine ⟨translateAccepted_logs env s0 request, ?_⟩
  rw [translateAccepted_logs, translateAccepted_logs, hrender, hnames, hwriter]
  congr 2
  rcases hsame with ⟨t, ht⟩ | hj
  · rw [ht]
    rfl
  · cases namesOutcome env s0 request with
    | ok t => rfl
    | error e =>
      simp only [namesLog, namesText]
      rw [hj]

/-- C15 amended, on two requests with different names, codes and renderText:
the renderText call fails with the same error, the names call succeeds with the
same output, and the log lines are the same single line. -/
theorem C15_logs_amended_witness :
    Accepted (scriptedEnv abcRequest) ⟨"POST", ""⟩ abcRequest ∧
    Accepted (scriptedEnv xyzRequest) ⟨"POST", ""⟩ xyzRequest ∧
    logLines (TranslateHandler (scriptedEnv abcRequest) [.error "timeout", .ok "A, B, C"]
        ⟨"POST", ""⟩).trace = ["Translation failed for renderText: timeout"] ∧
    (logLines (TranslateHandler (scriptedEnv abcRequest) [.error "timeout", .ok "A, B, C"]
        ⟨"POST", ""⟩).trace =
      renderLog (renderOutcome (scriptedEnv abcRequest) [.error "timeout", .ok "A, B, C"]
          abcRequest)
        ++ namesLog abcRequest
          (namesOutcome (scriptedEnv abcRequest) [.error "timeout", .ok "A, B, C"] abcRequest)
        ++ encodeLog (encodeOutcome (scriptedEnv abcRequest)
          (TranslateHandler (scriptedEnv abcRequest) [.error "timeout", .ok "A, B, C"]
            ⟨"POST", ""⟩)) ∧
    logLines (TranslateHandler (scriptedEnv xyzRequest) [.error "timeout", .ok "A, B, C"]
        ⟨"POST", ""⟩).trace =
      logLines (TranslateHandler (scriptedEnv abcRequest) [.error "timeout", .ok "A, B, C"]
        ⟨"POST", ""⟩).trace) :=
  ⟨⟨rfl, rfl, by decide⟩, ⟨rfl, rfl, by decide⟩, by decide,
    C15_logs_amended (scriptedEnv abcRequest) [.error "timeout", .ok "A, B, C"] ⟨"POST", ""⟩
      abcRequest (scriptedEnv xyzRequest) [.error "timeout", .ok "A, B, C"] ⟨"POST", ""⟩
      xyzRequest ⟨rfl, rfl, by decide⟩ ⟨rfl, rfl, by decide⟩ rfl rfl (by decide)
      (Or.inl ⟨"A, B, C", rfl⟩)⟩

/-- C17, as stated, fails: a POST request without colors is rejected, and when
the writer refuses the error body `sendJSONResponse` writes a log line. -/
theorem C17_rejected_counterexample :
    Rejected (brokenPipeEnv emptyRequest) ⟨"POST", ""⟩ ∧
    providerCalls (TranslateHandler (brokenPipeEnv emptyRequest) [] ⟨"POST", ""⟩).trace = [] ∧
    logLines (TranslateHandler (brokenPipeEnv emptyRequest) [] ⟨"POST", ""⟩).trace =
      ["Failed to encode JSON response: write: broken pipe"] ∧
    logLines (TranslateHandler (brokenPipeEnv emptyRequest) [] ⟨"POST", ""⟩).trace ≠ [] :=
  ⟨Or.inr (Or.inr ⟨emptyRequest, rfl, rfl⟩), by decide, by decide, by decide⟩

/-- C17, amended. A rejected request (wrong method, undecodable body, or no
colors) causes no provider call and leaves the provider state untouched; its
only possible log line is the one `sendJSONResponse` writes when the writer
refuses the error body, and a request rejected for its method writes no log
line at all. -/
theorem C17_rejected_amended {σ : Type} (env : Env σ) (s0 : σ) (r : HttpRequest)
    (hrej : Rejected env r) :
    providerCalls (TranslateHandler env s0 r).trace = [] ∧
    (TranslateHandler env s0 r).state = s0 ∧
    logLines (TranslateHandler env s0 r).trace =
      encodeLog (encodeOutcome env (TranslateHandler env s0 r)) ∧
    (encodeOutcome env (TranslateHandler env s0 r) = none →
      logLines (TranslateHandler env s0 r).trace = []) ∧
    (r.Method ≠ MethodPost → logLines (TranslateHandler env s0 r).trace = []) := by
  obtain ⟨hcalls, hstate, hlogs⟩ := TranslateHandler_rejected env s0 r hrej
  refine ⟨hcalls, hstate, hlogs, ?_, ?_⟩
  · intro hnone
    rw [hlogs, hnone]
    rfl
  · intro hm
    rw [TranslateHandler_wrong_method env s0 r hm]
    rfl

/-- C17 amended, on the three kinds of rejection with a writer that accepts the
body, and on a rejection whose error body the writer refuses. -/
theorem C17_rejected_amended_witness :
    Rejected (scriptedEnv abcRequest) ⟨"GET", ""⟩ ∧
    logLines (TranslateHandler (scriptedEnv abcRequest) [.ok "x"] ⟨"GET", ""⟩).trace = [] ∧
    logLines (TranslateHandler (brokenPipeEnv emptyRequest) [] ⟨"POST", ""⟩).trace =
      encodeLog (encodeOutcome (brokenPipeEnv emptyRequest)
        (TranslateHandler (brokenPipeEnv emptyRequest) [] ⟨"POST", ""⟩)) ∧
    providerCalls (TranslateHandler rejectingEnv () ⟨"POST", "<html>"⟩).trace = [] ∧
    providerCalls (TranslateHandler (scriptedEnv emptyRequest) [.ok "x"] ⟨"POST", ""⟩).trace
      = [] :=
  ⟨Or.inl (by decide),
    (C17_rejected_amended (scriptedEnv abcRequest) [.ok "x"] ⟨"GET", ""⟩
      (Or.inl (by decide))).2.2.2.2 (by decide),
    (C17_rejected_amended (brokenPipeEnv emptyRequest) [] ⟨"POST", ""⟩
      (Or.inr (Or.inr ⟨emptyRequest, rfl, rfl⟩))).2.2.1,
    (C17_rejected_amended rejectingEnv () ⟨"POST", "<html>"⟩
      (Or.inr (Or.inl ⟨"invalid character", rfl⟩))).1,
    (C17_rejected_amended (scriptedEnv emptyRequest) [.ok "x"] ⟨"POST", ""⟩
      (Or.inr (Or.inr ⟨emptyRequest, rfl, rfl⟩))).1⟩

/-! ## Lemmas on splitting -/

theorem consHead_ne_nil (c : Char) (l : List (List Char)) : consHead c l ≠ [] := by
  cases l <;> simp [consHead]

theorem splitChars_ne_nil (sep : List Char) (k : Nat) (s : List Char) :
    splitChars sep k s ≠ [] := by
  induction s generalizing k with
  | nil => cases k <;> simp [splitChars]
  | cons c rest ih =>
    cases k with
    | zero =>
      simp only [splitChars]
      split
      · simp
      · exact consHead_ne_nil _ _
    | succ k =>
      simp only [splitChars]
      exact ih k

theorem splitChars_skip_one (sep : List Char) (c : Char) (rest : List Char) :
    splitChars sep 1 (c :: rest) = splitChars sep 0 rest := by
  simp [splitChars]

/-- Splitting on `", "` at an occurrence of the separator. -/
theorem splitChars_sep (rest : List Char) :
    splitChars [',', ' '] 0 (',' :: ' ' :: rest) = [] :: splitChars [',', ' '] 0 rest := by
  simp [splitChars]

/-- Splitting on `", "` away from an occurrence of the separator. -/
theorem splitChars_other (c : Char) (rest : List Char)
    (h : [',', ' '].isPrefixOf (c :: rest) = false) :
    splitChars [',', ' '] 0 (c :: rest) = consHead c (splitChars [',', ' '] 0 rest) := by
  simp [splitChars, h]

/-- The first piece of a split on `", "` is the text before the first
separator. -/
theorem splitChars_head (s : List Char) :
    ∃ tail, splitChars [',', ' '] 0 s = beforeFirstSep s :: tail := by
  induction s with
  | nil => exact ⟨[], rfl⟩
  | cons c rest ih =>
    obtain ⟨tail, ht⟩ := ih
    cases h : [',', ' '].isPrefixOf (c :: rest) with
    | true =>
      refine ⟨splitChars [',', ' '] ([',', ' '].length - 1) rest, ?_⟩
      simp [splitChars, beforeFirstSep, h]
    | false =>
      refine ⟨tail, ?_⟩
      rw [splitChars_other c rest h, ht]
      simp [beforeFirstSep, h, consHead]

theorem Split_head (s : String) :
    ∃ tail, Split s ", " = String.mk (beforeFirstSep s.data) :: tail := by
  obtain ⟨tail, ht⟩ := splitChars_head s.data
  refine ⟨tail.map String.mk, ?_⟩
  show (splitChars [',', ' '] 0 s.data).map String.mk = _
  rw [ht]
  rfl

/-- The name at position 0 of the loop's result, for a non-empty list of
pieces. -/
theorem translations_first (piece : String) (tail : List String) (color : Color)
    (rest : List Color) :
    ((translations (piece :: tail) 0 (color :: rest))[0]?).map Color.Name
      = some (TrimSpace piece) := by
  simp [translations]

/-- With a single piece, every position from 1 on keeps the original name. -/
theorem translations_single_later (piece : String) (colors : List Color) (i : Nat)
    (hi : 1 ≤ i) :
    ((translations [piece] 0 colors)[i]?).map Color.Name = (colors[i]?).map Color.Name := by
  rw [getElem?_translations]
  have hne : i ≠ 0 := by omega
  cases colors[i]? with
  | none => rfl
  | some color => simp [hne]

/-- C18 (the first position never falls back). For every accepted request and
every provider outcome, the split of the names translation has at least one
piece, so position 0 takes the first branch of the loop: the response name at
position 0 is the trimmed text that precedes the first `", "` of the names
translation (the whole text when it has none).  When the names call succeeds
with the empty string, the name at position 0 is empty and every later position
keeps the original name. -/
theorem C18_first_position {σ : Type} (env : Env σ) (s0 : σ) (r : HttpRequest)
    (request : TranslateRequest) (hacc : Accepted env r request) :
    ∃ resp, (TranslateHandler env s0 r).response.body = .json resp ∧
      0 < (Split (splitInput request (namesOutcome env s0 request)) ", ").length ∧
      (resp.Colors[0]?).map Color.Name =
        some (TrimSpace (String.mk
          (beforeFirstSep (splitInput request (namesOutcome env s0 request)).data))) ∧
      (namesOutcome env s0 request = .ok "" →
        (resp.Colors[0]?).map Color.Name = some "" ∧
        ∀ i : Nat, 1 ≤ i →
          (resp.Colors[i]?).map Color.Name = (request.Colors[i]?).map Color.Name) := by
  refine ⟨_, by rw [TranslateHandler_accepted_response env s0 r request hacc]; rfl, ?_, ?_, ?_⟩
  · obtain ⟨tail, ht⟩ := Split_head (splitInput request (namesOutcome env s0 request))
    rw [ht]
    simp
  · obtain ⟨tail, ht⟩ := Split_head (splitInput request (namesOutcome env s0 request))
    show ((translations (Split (splitInput request (namesOutcome env s0 request)) ", ") 0
      request.Colors)[0]?).map Color.Name = _
    rw [ht]
    cases hc : request.Colors with
    | nil => exact absurd hc hacc.2.2
    | cons color rest => exact translations_first _ _ _ _
  · intro hempty
    show ((translations (Split (splitInput request (namesOutcome env s0 request)) ", ") 0
        request.Colors)[0]?).map Color.Name = some "" ∧
      ∀ i : Nat, 1 ≤ i →
        ((translations (Split (splitInput request (namesOutcome env s0 request)) ", ") 0
          request.Colors)[i]?).map Color.Name = (request.Colors[i]?).map Color.Name
    rw [hempty]
    have hsplit : Split "" ", " = [""] := by decide
    show ((translations (Split "" ", ") 0 request.Colors)[0]?).map Color.Name = some "" ∧
      ∀ i : Nat, 1 ≤ i →
        ((translations (Split "" ", ") 0 request.Colors)[i]?).map Color.Name
          = (request.Colors[i]?).map Color.Name
    rw [hsplit]
    refine ⟨?_, fun i hi => translations_single_later "" request.Colors i hi⟩
    cases hc : request.Colors with
    | nil => exact absurd hc hacc.2.2
    | cons color rest =>
      rw [translations_first]
      decide

/-- C18 on three colors with the names call succeeding with the empty string:
the names of the response are the empty string, b and c. -/
theorem C18_first_position_witness :
    Accepted (scriptedEnv abcRequest) ⟨"POST", ""⟩ abcRequest ∧
    (TranslateHandler (scriptedEnv abcRequest) [.ok "PICK ONE", .ok ""]
        ⟨"POST", ""⟩).response.body =
      .json { Colors := [⟨"", "#f00"⟩, ⟨"b", "#0f0"⟩, ⟨"c", "#00f"⟩]
              RenderText := "PICK ONE", Status := true
              Message := "Translations completed" } ∧
    ∃ resp, (TranslateHandler (scriptedEnv abcRequest) [.ok "PICK ONE", .ok ""]
        ⟨"POST", ""⟩).response.body = .json resp ∧
      0 < (Split (splitInput abcRequest
        (namesOutcome (scriptedEnv abcRequest) [.ok "PICK ONE", .ok ""] abcRequest)) ", ").length ∧
      (resp.Colors[0]?).map Color.Name =
        some (TrimSpace (String.mk (beforeFirstSep (splitInput abcRequest
          (namesOutcome (scriptedEnv abcRequest) [.ok "PICK ONE", .ok ""] abcRequest)).data))) ∧
      (namesOutcome (scriptedEnv abcRequest) [.ok "PICK ONE", .ok ""] abcRequest = .ok "" →
        (resp.Colors[0]?).map Color.Name = some "" ∧
        ∀ i : Nat, 1 ≤ i →
          (resp.Colors[i]?).map Color.Name = (abcRequest.Colors[i]?).map Color.Name) :=
  ⟨⟨rfl, rfl, by decide⟩, by decide,
    C18_first_position (scriptedEnv abcRequest) [.ok "PICK ONE", .ok ""] ⟨"POST", ""⟩
      abcRequest ⟨rfl, rfl, by decide⟩⟩

/-! ## Lemmas on joining and splitting -/

theorem Join_data (names : List String) (sep : String) :
    (Join names sep).data = joinChars (names.map String.data) sep.data := by
  induction names with
  | nil => rfl
  | cons a rest ih =>
    cases rest with
    | nil => rfl
    | cons b rest2 =>
      simp only [Join, String.data_append, List.map_cons, joinChars]
      rw [ih]
      rfl

/-- The separator `", "` starts at the head of a list exactly when the list
starts with a comma followed by a space. -/
theorem isPrefixOf_sep_cons_cons (c d : Char) (rest : List Char) :
    [',', ' '].isPrefixOf (c :: d :: rest) = (',' == c && ' ' == d) := by
  simp [List.isPrefixOf]

theorem isPrefixOf_sep_single (c : Char) : [',', ' '].isPrefixOf [c] = false := by
  simp [List.isPrefixOf]

/-- An occurrence of `", "` at the head of `c :: p ++ t` with `p` free of the
separator and `t` not starting with a space is an occurrence at the head of
`c :: p`. -/
theorem isPrefixOf_sep_append (c : Char) (p t : List Char)
    (ht : t.head? ≠ some ' ')
    (h : [',', ' '].isPrefixOf (c :: p) = false) :
    [',', ' '].isPrefixOf (c :: (p ++ t)) = false := by
  cases p with
  | nil =>
    cases t with
    | nil => exact isPrefixOf_sep_single c
    | cons d t2 =>
      simp only [List.nil_append, isPrefixOf_sep_cons_cons]
      have hd : d ≠ ' ' := by
        intro hd
        exact ht (by simp [hd])
      have hd2 : (' ' == d) = false := by
        simp only [beq_eq_false_iff_ne, ne_eq]
        exact fun h2 => hd h2.symm
      simp [hd2]
  | cons d p2 =>
    simpa only [List.cons_append, isPrefixOf_sep_cons_cons] using h

/-- Splitting `p ++ ", " ++ rest` when `p` is free of the separator: the first
piece is `p`. -/
theorem splitChars_append_sep (p rest : List Char)
    (hp : containsChars [',', ' '] p = false) :
    splitChars [',', ' '] 0 (p ++ ',' :: ' ' :: rest) = p :: splitChars [',', ' '] 0 rest := by
  induction p with
  | nil => exact splitChars_sep rest
  | cons c p2 ih =>
    simp only [containsChars, Bool.or_eq_false_iff] at hp
    have hpre : [',', ' '].isPrefixOf (c :: (p2 ++ ',' :: ' ' :: rest)) = false :=
      isPrefixOf_sep_append c p2 (',' :: ' ' :: rest) (by simp) hp.1
    rw [List.cons_append, splitChars_other c _ hpre, ih hp.2]
    rfl

/-- Splitting a text free of the separator gives the text as single piece. -/
theorem splitChars_no_sep (p : List Char) (hp : containsChars [',', ' '] p = false) :
    splitChars [',', ' '] 0 p = [p] := by
  induction p with
  | nil => rfl
  | cons c p2 ih =>
    simp only [containsChars, Bool.or_eq_false_iff] at hp
    rw [splitChars_other c _ hp.1, ih hp.2]
    rfl

/-- Splitting the join of non-empty many separator-free pieces gives the pieces
back. -/
theorem splitChars_joinChars (pieces : List (List Char)) (hne : pieces ≠ [])
    (hp : ∀ p ∈ pieces, containsChars [',', ' '] p = false) :
    splitChars [',', ' '] 0 (joinChars pieces [',', ' ']) = pieces := by
  induction pieces with
  | nil => exact absurd rfl hne
  | cons a rest ih =>
    cases rest with
    | nil => exact splitChars_no_sep a (hp a (by simp))
    | cons b rest2 =>
      have hrest : ∀ p ∈ b :: rest2, containsChars [',', ' '] p = false :=
        fun p hmem => hp p (List.mem_cons_of_mem a hmem)
      simp only [joinChars, List.append_assoc, List.cons_append, List.nil_append]
      rw [splitChars_append_sep a _ (hp a (by simp)), ih (by simp) hrest]

theorem isPrefixOf_sep_beforeFirstSep (c : Char) (rest : List Char)
    (h : [',', ' '].isPrefixOf (c :: rest) = false) :
    [',', ' '].isPrefixOf (c :: beforeFirstSep rest) = false := by
  cases rest with
  | nil => exact h
  | cons d rest2 =>
    cases hd : [',', ' '].isPrefixOf (d :: rest2) with
    | true =>
      simp only [beforeFirstSep, hd, if_true]
      exact isPrefixOf_sep_single c
    | false =>
      simp only [beforeFirstSep, hd, Bool.false_eq_true, if_false, isPrefixOf_sep_cons_cons]
      simpa only [isPrefixOf_sep_cons_cons] using h

/-- No piece of a split on `", "` contains the separator. -/
theorem splitChars_pieces_no_sep (s : List Char) (k : Nat) :
    ∀ p ∈ splitChars [',', ' '] k s, containsChars [',', ' '] p = false := by
  induction s generalizing k with
  | nil =>
    intro p hp
    have hnil : splitChars [',', ' '] k [] = [[]] := by cases k <;> rfl
    rw [hnil, List.mem_singleton] at hp
    rw [hp]
    rfl
  | cons c rest ih =>
    cases k with
    | succ k =>
      intro p hp
      simp only [splitChars] at hp
      exact ih k p hp
    | zero =>
      intro p hp
      cases h : [',', ' '].isPrefixOf (c :: rest) with
      | true =>
        simp only [splitChars, h, if_true, List.mem_cons] at hp
        rcases hp with hp | hp
        · rw [hp]
          rfl
        · exact ih _ p hp
      | false =>
        rw [splitChars_other c rest h] at hp
        obtain ⟨tail, ht⟩ := splitChars_head rest
        have hmem : ∀ q ∈ beforeFirstSep rest :: tail, containsChars [',', ' '] q = false := by
          intro q hq
          rw [← ht] at hq
          exact ih 0 q hq
        rw [ht] at hp
        simp only [consHead, List.mem_cons] at hp
        rcases hp with hp | hp
        · rw [hp]
          simp only [containsChars, Bool.or_eq_false_iff]
          exact ⟨isPrefixOf_sep_beforeFirstSep c rest h, hmem _ (by simp)⟩
        · exact hmem p (List.mem_cons_of_mem _ hp)

/-- The round trip on strings: splitting the join of a non-empty list of names
gives the names back exactly when no name contains `", "`. -/
theorem Split_Join_iff (names : List String) (hne : names ≠ []) :
    Split (Join names ", ") ", " = names ↔ ∀ name ∈ names, Contains name ", " = false := by
  have hdata : Split (Join names ", ") ", " =
      (splitChars [',', ' '] 0 (joinChars (names.map String.data) [',', ' '])).map String.mk := by
    simp only [Split, Join_data]
  constructor
  · intro h name hname
    rw [hdata] at h
    rw [← h, List.mem_map] at hname
    obtain ⟨p, hp, hpe⟩ := hname
    rw [← hpe]
    exact splitChars_pieces_no_sep _ 0 p hp
  · intro h
    rw [hdata, splitChars_joinChars (names.map String.data) (by simpa using hne)]
    · simp only [List.map_map]
      exact List.map_id _
    · intro p hp
      rw [List.mem_map] at hp
      obtain ⟨name, hname, hpe⟩ := hp
      rw [← hpe]
      exact h name hname

/-- When the split yields as many pieces as there are colors, the names of the
response are the trimmed pieces, in order. -/
theorem translations_exact (pieces : List String) (colors : List Color)
    (hlen : pieces.length = colors.length) :
    (translations pieces 0 colors).map Color.Name = pieces.map TrimSpace := by
  apply List.ext_getElem?
  intro j
  rw [List.getElem?_map, getElem?_translations, List.getElem?_map]
  by_cases hj : j < pieces.length
  · have hj2 : j < colors.length := hlen ▸ hj
    simp [List.getElem?_eq_getElem hj, List.getElem?_eq_getElem hj2, hj]
  · have hj2 : ¬ j < colors.length := hlen ▸ hj
    simp [List.getElem?_eq_none (Nat.le_of_not_lt hj), List.getElem?_eq_none (Nat.le_of_not_lt hj2)]


/-- A list of colors is determined by its names and its codes. -/
theorem colors_ext (xs ys : List Color)
    (hn : xs.map Color.Name = ys.map Color.Name)
    (hc : xs.map Color.Code = ys.map Color.Code) : xs = ys := by
  induction xs generalizing ys with
  | nil =>
    cases ys with
    | nil => rfl
    | cons y ys2 => simp at hn
  | cons x xs2 ih =>
    cases ys with
    | nil => simp at hn
    | cons y ys2 =>
      simp only [List.map_cons, List.cons.injEq] at hn hc
      have hxy : x = y := by
        cases x
        cases y
        simp only [Color.mk.injEq]
        exact ⟨hn.1, hc.1⟩
      rw [hxy, ih ys2 hn.2 hc.2]

/-- The colors of an accepted response when the split of the names translation
yields exactly the list `pieces`, one piece per color. -/
theorem accepted_colors_of_split {σ : Type} (env : Env σ) (s0 : σ) (r : HttpRequest)
    (request : TranslateRequest) (pieces : List String)
    (hacc : Accepted env r request)
    (hsplit : Split (splitInput request (namesOutcome env s0 request)) ", " = pieces)
    (hlen : pieces.length = request.Colors.length) :
    ∃ resp, (TranslateHandler env s0 r).response.body = .json resp ∧
      resp.Colors.map Color.Name = pieces.map TrimSpace ∧
      resp.Colors.map Color.Code = request.Colors.map Color.Code := by
  refine ⟨_, by rw [TranslateHandler_accepted_response env s0 r request hacc]; rfl, ?_, ?_⟩
  · show (translations (Split (splitInput request (namesOutcome env s0 request)) ", ") 0
      request.Colors).map Color.Name = _
    rw [hsplit]
    exact translations_exact pieces request.Colors hlen
  · exact map_Code_translations _ _ _

/-! ## The claims on packing and unpacking -/

/-- C12 (pack/unpack round trip). For every non-empty list of names, splitting
the names joined with `", "` on `", "` returns exactly the names if and only if
no name contains `", "`.  Consequently, for an accepted request with these
names whose names call returns its input unchanged, if no name contains `", "`
and trimming leaves every name unchanged, the names of the response are the
original names. -/
theorem C12_round_trip (names : List String) (hne : names ≠ []) :
    (Split (Join names ", ") ", " = names ↔ ∀ name ∈ names, Contains name ", " = false) ∧
    ∀ {σ : Type} (env : Env σ) (s0 : σ) (r : HttpRequest) (request : TranslateRequest),
      Accepted env r request → request.Colors.map Color.Name = names →
      namesOutcome env s0 request = .ok (Join names ", ") →
      (∀ name ∈ names, Contains name ", " = false ∧ TrimSpace name = name) →
      ∃ resp, (TranslateHandler env s0 r).response.body = .json resp ∧
        resp.Colors.map Color.Name = names := by
  refine ⟨Split_Join_iff names hne, ?_⟩
  intro σ env s0 r request hacc hnames hout hclean
  have hsplit : Split (splitInput request (namesOutcome env s0 request)) ", " = names := by
    rw [hout]
    exact (Split_Join_iff names hne).mpr (fun name hname => (hclean name hname).1)
  have hlen : names.length = request.Colors.length := by
    rw [← hnames, List.length_map]
  obtain ⟨resp, hbody, hn, -⟩ := accepted_colors_of_split env s0 r request names hacc hsplit hlen
  refine ⟨resp, hbody, ?_⟩
  rw [hn]
  calc names.map TrimSpace = names.map id :=
        List.map_congr_left (fun name hname => (hclean name hname).2)
    _ = names := List.map_id names

/-- C12 on the names a, b, c with a provider that echoes the names batch; and
on the single name `a, b`, which contains the separator and is not recovered. -/
theorem C12_round_trip_witness :
    Split (Join ["a", "b", "c"] ", ") ", " = ["a", "b", "c"] ∧
    Split (Join ["a, b"] ", ") ", " = ["a", "b"] ∧
    ¬ (∀ name ∈ ["a, b"], Contains name ", " = false) ∧
    ∃ resp, (TranslateHandler (scriptedEnv abcRequest) [.ok "pick one", .ok "a, b, c"]
        ⟨"POST", ""⟩).response.body = .json resp ∧
      resp.Colors.map Color.Name = ["a", "b", "c"] :=
  ⟨(C12_round_trip ["a", "b", "c"] (by decide)).1.mpr (by decide),
    by decide,
    fun h => absurd ((C12_round_trip ["a, b"] (by decide)).1.mpr h) (by decide),
    (C12_round_trip ["a", "b", "c"] (by decide)).2 (scriptedEnv abcRequest)
      [.ok "pick one", .ok "a, b, c"] ⟨"POST", ""⟩ abcRequest ⟨rfl, rfl, by decide⟩ rfl rfl
      (by decide)⟩

/-! ## Lemmas on the two-space separator -/

theorem cons_joinChars (c : Char) (b : List Char) (l : List (List Char)) (sep : List Char) :
    c :: joinChars (b :: l) sep = joinChars ((c :: b) :: l) sep := by
  cases l <;> rfl

/-- Joining with a comma and two spaces is joining with `", "` after putting a
space in front of every piece but the first. -/
theorem joinChars_two_spaces (p : List Char) (rest : List (List Char)) :
    joinChars (p :: rest) [',', ' ', ' '] =
      joinChars (p :: rest.map (fun q => ' ' :: q)) [',', ' '] := by
  induction rest generalizing p with
  | nil => rfl
  | cons b rest2 ih =>
    simp only [joinChars, List.map_cons, List.append_assoc, List.cons_append, List.nil_append]
    rw [ih b, cons_joinChars]

theorem containsChars_of_no_comma (p : List Char) (h : ',' ∉ p) :
    containsChars [',', ' '] p = false := by
  induction p with
  | nil => rfl
  | cons c p2 ih =>
    simp only [List.mem_cons, not_or] at h
    simp only [containsChars, Bool.or_eq_false_iff]
    refine ⟨?_, ih h.2⟩
    cases p2 with
    | nil => exact isPrefixOf_sep_single c
    | cons d p3 =>
      rw [isPrefixOf_sep_cons_cons]
      have hc : (',' == c) = false := by
        simp only [beq_eq_false_iff_ne, ne_eq]
        exact h.1
      simp [hc]

theorem containsChars_space_cons (p : List Char) :
    containsChars [',', ' '] (' ' :: p) = containsChars [',', ' '] p := by
  cases p with
  | nil => rfl
  | cons d p2 =>
    simp only [containsChars, isPrefixOf_sep_cons_cons]
    have hc : (',' == ' ') = false := by decide
    simp [hc]

theorem trimChars_space_cons (p : List Char) : trimChars (' ' :: p) = trimChars p := by
  have hs : isSpace ' ' = true := by decide
  simp [trimChars, List.dropWhile, hs]

/-- Splitting on `", "` a text joined with a comma and two spaces: every piece
but the first comes back with one leading space. -/
theorem Split_two_spaces (p : String) (rest : List String)
    (h : ∀ q ∈ p :: rest, ',' ∉ q.data) :
    Split (Join (p :: rest) ",  ") ", " =
      p :: rest.map (fun q => String.mk (' ' :: q.data)) := by
  have hdata : Split (Join (p :: rest) ",  ") ", " =
      (splitChars [',', ' '] 0
        (joinChars (p.data :: rest.map String.data) [',', ' ', ' '])).map String.mk := by
    simp only [Split, Join_data, List.map_cons]
  rw [hdata, joinChars_two_spaces, splitChars_joinChars _ (by simp)]
  · simp only [List.map_cons, List.map_map]
    rfl
  · intro q hq
    simp only [List.mem_cons, List.mem_map] at hq
    rcases hq with hq | ⟨q2, ⟨q3, hq3, hq3e⟩, hq2e⟩
    · rw [hq]
      exact containsChars_of_no_comma _ (h p (by simp))
    · rw [← hq2e, containsChars_space_cons, ← hq3e]
      exact containsChars_of_no_comma _ (h q3 (List.mem_cons_of_mem _ hq3))

/-- C11, as stated, fails for the separator without a space: with the names
a, b, c and the provider output `A,B,C` (the pieces A, B, C joined with a
comma), the split on `", "` finds no separator, position 0 gets the whole
output and positions 1 and 2 keep the original names. -/
theorem C11_drift_counterexample :
    Accepted (scriptedEnv abcRequest) ⟨"POST", ""⟩ abcRequest ∧
    (∀ p ∈ ["A", "B", "C"], ',' ∉ p.data ∧ TrimSpace p = p) ∧
    namesOutcome (scriptedEnv abcRequest) [.ok "PICK ONE", .ok "A,B,C"] abcRequest
      = .ok (Join ["A", "B", "C"] ",") ∧
    (TranslateHandler (scriptedEnv abcRequest) [.ok "PICK ONE", .ok "A,B,C"]
        ⟨"POST", ""⟩).response.body =
      .json { Colors := [⟨"A,B,C", "#f00"⟩, ⟨"b", "#0f0"⟩, ⟨"c", "#00f"⟩]
              RenderText := "PICK ONE", Status := true
              Message := "Translations completed" } ∧
    ¬ ∃ resp, (TranslateHandler (scriptedEnv abcRequest) [.ok "PICK ONE", .ok "A,B,C"]
        ⟨"POST", ""⟩).response.body = .json resp ∧
      resp.Colors.map Color.Name = ["A", "B", "C"] := by
  refine ⟨⟨rfl, rfl, by decide⟩, by decide, rfl, by decide, ?_⟩
  rintro ⟨resp, hbody, hnames⟩
  have hconcrete : (TranslateHandler (scriptedEnv abcRequest) [.ok "PICK ONE", .ok "A,B,C"]
      ⟨"POST", ""⟩).response.body =
      .json { Colors := [⟨"A,B,C", "#f00"⟩, ⟨"b", "#0f0"⟩, ⟨"c", "#00f"⟩]
              RenderText := "PICK ONE", Status := true
              Message := "Translations completed" } := by decide
  rw [hconcrete, ResponseBody.json.injEq] at hbody
  rw [← hbody] at hnames
  exact absurd hnames (by decide)

/-- C11, amended. For an accepted request with N colors and N pieces that
contain no comma and are left unchanged by trimming, if the names call returns
the pieces joined with a comma and two spaces, the names of the response are
exactly the pieces; with the pieces joined by a comma alone this holds for a
single color. -/
theorem C11_drift_amended {σ : Type} (env : Env σ) (s0 : σ) (r : HttpRequest)
    (request : TranslateRequest) (pieces : List String)
    (hacc : Accepted env r request)
    (hlen : pieces.length = request.Colors.length)
    (hcomma : ∀ p ∈ pieces, ',' ∉ p.data)
    (htrim : ∀ p ∈ pieces, TrimSpace p = p)
    (hout : namesOutcome env s0 request = .ok (Join pieces ",  ") ∨
      (pieces.length = 1 ∧ namesOutcome env s0 request = .ok (Join pieces ","))) :
    ∃ resp, (TranslateHandler env s0 r).response.body = .json resp ∧
      resp.Colors.map Color.Name = pieces := by
  cases pieces with
  | nil =>
    exact absurd (List.length_eq_zero.mp hlen.symm) hacc.2.2
  | cons p rest =>
    have hsplit : Split (splitInput request (namesOutcome env s0 request)) ", " =
        p :: rest.map (fun q => String.mk (' ' :: q.data)) := by
      rcases hout with hout | ⟨hone, hout⟩
      · rw [hout]
        exact Split_two_spaces p rest hcomma
      · have hrest : rest = [] := by
          simpa using hone
        rw [hout, hrest]
        exact Split_two_spaces p [] (by simpa [hrest] using hcomma)
    obtain ⟨resp, hbody, hn, -⟩ := accepted_colors_of_split env s0 r request _ hacc hsplit
      (by simpa using hlen)
    refine ⟨resp, hbody, ?_⟩
    rw [hn]
    simp only [List.map_cons, List.map_map, List.cons.injEq]
    refine ⟨htrim p (by simp), ?_⟩
    calc rest.map (TrimSpace ∘ fun q => String.mk (' ' :: q.data)) = rest.map id := by
          apply List.map_congr_left
          intro q hq
          have hq2 : TrimSpace q = q := htrim q (List.mem_cons_of_mem _ hq)
          simp only [Function.comp, TrimSpace, trimChars_space_cons, id]
          exact hq2
      _ = rest := List.map_id rest

/-- C11 amended, on the names a, b, c with the provider output `A,  B,  C`. -/
theorem C11_drift_amended_witness :
    (TranslateHandler (scriptedEnv abcRequest) [.ok "PICK ONE", .ok "A,  B,  C"]
        ⟨"POST", ""⟩).response.body =
      .json { Colors := [⟨"A", "#f00"⟩, ⟨"B", "#0f0"⟩, ⟨"C", "#00f"⟩]
              RenderText := "PICK ONE", Status := true
              Message := "Translations completed" } ∧
    ∃ resp, (TranslateHandler (scriptedEnv abcRequest) [.ok "PICK ONE", .ok "A,  B,  C"]
        ⟨"POST", ""⟩).response.body = .json resp ∧
      resp.Colors.map Color.Name = ["A", "B", "C"] :=
  ⟨by decide,
    C11_drift_amended (scriptedEnv abcRequest) [.ok "PICK ONE", .ok "A,  B,  C"] ⟨"POST", ""⟩
      abcRequest ["A", "B", "C"] ⟨rfl, rfl, by decide⟩ rfl (by decide) (by decide)
      (Or.inl rfl)⟩

/-! ## Lemmas on a provider that maps code points -/

theorem map_joinChars (g : Char → Char) (l : List (List Char)) (sep : List Char) :
    (joinChars l sep).map g = joinChars (l.map (List.map g)) (sep.map g) := by
  induction l with
  | nil => rfl
  | cons a rest ih =>
    cases rest with
    | nil => rfl
    | cons b rest2 =>
      simp only [joinChars, List.map_append, List.map_cons]
      rw [ih]
      rfl

/-- A code point map that fixes the comma and the space sends the joined names
to the joined images; when no image contains `", "`, the split recovers the
images. -/
theorem Split_mapString_Join (g : Char → Char) (names : List String)
    (hcomma : g ',' = ',') (hspace : g ' ' = ' ') (hne : names ≠ [])
    (hclean : ∀ name ∈ names, Contains (mapString g name) ", " = false) :
    Split (mapString g (Join names ", ")) ", " = names.map (mapString g) := by
  have hdata : Split (mapString g (Join names ", ")) ", " =
      (splitChars [',', ' '] 0
        (joinChars ((names.map String.data).map (List.map g)) [',', ' '])).map String.mk := by
    simp only [Split, mapString, Join_data, map_joinChars]
    simp [hcomma, hspace]
  rw [hdata, splitChars_joinChars _ (by simpa using hne)]
  · simp only [List.map_map]
    rfl
  · intro p hp
    simp only [List.map_map, List.mem_map, Function.comp] at hp
    obtain ⟨name, hname, hpe⟩ := hp
    rw [← hpe]
    exact hclean name hname

/-! ## The claim on the happy path -/

/-- C13, as stated, fails for a code point map that fixes the comma and the
space but creates a separator: with `x` sent to a comma and the names `x y` and
b (neither contains `", "`), the provider turns the batch `x y, b` into
`, y, b`, which splits into three pieces; the response names are the empty
string and y, not the images `, y` and b. -/
theorem C13_happy_path_counterexample :
    commaForX ',' = ',' ∧ commaForX ' ' = ' ' ∧
    ProviderMaps (mapEnv commaForX xyRequest) commaForX ∧
    Accepted (mapEnv commaForX xyRequest) ⟨"POST", ""⟩ xyRequest ∧
    (∀ name ∈ xyRequest.Colors.map Color.Name, Contains name ", " = false) ∧
    (TranslateHandler (mapEnv commaForX xyRequest) () ⟨"POST", ""⟩).response.body =
      .json { Colors := [⟨"", "#111"⟩, ⟨"y", "#222"⟩]
              RenderText := "hi", Status := true
              Message := "Translations completed" } ∧
    xyRequest.Colors.map
        (fun c => ({ Name := TrimSpace (mapString commaForX c.Name), Code := c.Code } : Color))
      = [⟨", y", "#111"⟩, ⟨"b", "#222"⟩] ∧
    ¬ ∃ resp, (TranslateHandler (mapEnv commaForX xyRequest) () ⟨"POST", ""⟩).response.body
        = .json resp ∧
      resp.Colors = xyRequest.Colors.map
        (fun c => ({ Name := TrimSpace (mapString commaForX c.Name), Code := c.Code } : Color)) := by
  refine ⟨by decide, by decide, fun _ _ _ => rfl, ⟨rfl, rfl, by decide⟩, by decide, by decide,
    by decide, ?_⟩
  rintro ⟨resp, hbody, hcolors⟩
  have hconcrete : (TranslateHandler (mapEnv commaForX xyRequest) () ⟨"POST", ""⟩).response.body =
      .json { Colors := [⟨"", "#111"⟩, ⟨"y", "#222"⟩]
              RenderText := "hi", Status := true
              Message := "Translations completed" } := by decide
  rw [hconcrete, ResponseBody.json.injEq] at hbody
  rw [← hbody] at hcolors
  exact absurd hcolors (by decide)

/-- C13, amended. If the provider maps every code point of its input through a
map `g` that fixes the comma and the space, then for every accepted request
such that no image of a name under `g` contains `", "` (so no name contains it
either), the response is HTTP 200 with status true, the message
`Translations completed`, the image of the request's renderText as renderText,
and at every position the trimmed image of the name with the original code. -/
theorem C13_happy_path_amended {σ : Type} (env : Env σ) (s0 : σ) (r : HttpRequest)
    (request : TranslateRequest) (g : Char → Char)
    (hcomma : g ',' = ',') (hspace : g ' ' = ' ')
    (hprov : ProviderMaps env g)
    (hacc : Accepted env r request)
    (hclean : ∀ name ∈ request.Colors.map Color.Name,
      Contains (mapString g name) ", " = false) :
    (TranslateHandler env s0 r).response.statusCode = 200 ∧
    ∃ resp, (TranslateHandler env s0 r).response.body = .json resp ∧
      resp.Status = true ∧ resp.Message = "Translations completed" ∧
      resp.RenderText = mapString g request.RenderText ∧
      resp.Colors = request.Colors.map
        (fun c => ({ Name := TrimSpace (mapString g c.Name), Code := c.Code } : Color)) := by
  have hrender : renderOutcome env s0 request = .ok (mapString g request.RenderText) :=
    hprov _ _ _
  have hnames : namesOutcome env s0 request = .ok (mapString g (namesText request)) :=
    hprov _ _ _
  have hne : request.Colors.map Color.Name ≠ [] := by
    simpa using hacc.2.2
  have hsplit : Split (splitInput request (namesOutcome env s0 request)) ", " =
      (request.Colors.map Color.Name).map (mapString g) := by
    rw [hnames]
    exact Split_mapString_Join g _ hcomma hspace hne hclean
  obtain ⟨resp, hbody, hn, hc⟩ := accepted_colors_of_split env s0 r request _ hacc hsplit
    (by simp)
  have hresp := TranslateHandler_accepted_response env s0 r request hacc
  refine ⟨by rw [hresp]; rfl, resp, hbody, ?_, ?_, ?_, ?_⟩
  · rw [hresp] at hbody
    simp only [sendJSONResponse, ResponseBody.json.injEq] at hbody
    rw [← hbody]
  · rw [hresp] at hbody
    simp only [sendJSONResponse, ResponseBody.json.injEq] at hbody
    rw [← hbody]
  · rw [hresp] at hbody
    simp only [sendJSONResponse, ResponseBody.json.injEq] at hbody
    rw [← hbody, hrender]
    rfl
  · apply colors_ext
    · rw [hn]
      simp only [List.map_map]
      rfl
    · rw [hc]
      simp only [List.map_map]
      rfl

/-- C13 amended, on the scenario of the claim: the provider uppercases, the
names red, green, blue with the codes #f00, #0f0, #00f and the renderText
`pick one` give RED, GREEN, BLUE with the same codes and `PICK ONE`. -/
theorem C13_happy_path_amended_witness :
    (TranslateHandler (mapEnv Char.toUpper rgbRequest) () ⟨"POST", ""⟩).response.body =
      .json { Colors := [⟨"RED", "#f00"⟩, ⟨"GREEN", "#0f0"⟩, ⟨"BLUE", "#00f"⟩]
              RenderText := "PICK ONE", Status := true
              Message := "Translations completed" } ∧
    (TranslateHandler (mapEnv Char.toUpper rgbRequest) () ⟨"POST", ""⟩).response.statusCode
      = 200 ∧
    ∃ resp, (TranslateHandler (mapEnv Char.toUpper rgbRequest) () ⟨"POST", ""⟩).response.body
        = .json resp ∧
      resp.Status = true ∧ resp.Message = "Translations completed" ∧
      resp.RenderText = mapString Char.toUpper rgbRequest.RenderText ∧
      resp.Colors = rgbRequest.Colors.map
        (fun c => ({ Name := TrimSpace (mapString Char.toUpper c.Name), Code := c.Code } : Color)) :=
  ⟨by decide,
    C13_happy_path_amended (mapEnv Char.toUpper rgbRequest) () ⟨"POST", ""⟩ rgbRequest
      Char.toUpper (by decide) (by decide) (fun _ _ _ => rfl) ⟨rfl, rfl, by decide⟩
      (by decide)⟩

/-! ## Lemmas on concurrent executions -/

theorem phaseStep_none (e : Event) : phaseStep none e = none := by
  cases e <;> rfl

theorem foldl_phaseStep_none (p : List Event) : p.foldl phaseStep none = none := by
  induction p with
  | nil => rfl
  | cons e rest ih => rw [List.foldl_cons, phaseStep_none, ih]

theorem mutexStep_none (x : Nat × Event) : mutexStep none x = none := by
  obtain ⟨i, e⟩ := x
  cases e <;> rfl

theorem foldl_mutexStep_none (l : List (Nat × Event)) : l.foldl mutexStep none = none := by
  induction l with
  | nil => rfl
  | cons x rest ih => rw [List.foldl_cons, mutexStep_none, ih]

theorem phaseAfter_append (p q : List Event) :
    phaseAfter (p ++ q) = q.foldl phaseStep (phaseAfter p) := by
  simp [phaseAfter, List.foldl_append]

theorem mutexAfter_append (p q : List (Nat × Event)) :
    mutexAfter (p ++ q) = q.foldl mutexStep (mutexAfter p) := by
  simp [mutexAfter, List.foldl_append]

theorem csOwner_append_singleton (p : List (Nat × Event)) (x : Nat × Event) :
    csOwner (p ++ [x]) = ownerStep (csOwner p) x := by
  simp [csOwner, List.foldl_append]

theorem project_append (i : Nat) (p q : List (Nat × Event)) :
    project i (p ++ q) = project i p ++ project i q := by
  simp [project, List.filter_append]

theorem project_singleton_self (i : Nat) (e : Event) : project i [(i, e)] = [e] := by
  simp [project]

theorem project_singleton_other (i j : Nat) (e : Event) (h : j ≠ i) :
    project i [(j, e)] = [] := by
  simp [project, h]

/-- A prefix of a trace that respects the program order respects it too. -/
theorem phaseAfter_initial (p t : List Event) (hp : p <+: t) (ht : phaseAfter t ≠ none) :
    phaseAfter p ≠ none := by
  obtain ⟨q, hq⟩ := hp
  intro hnone
  apply ht
  rw [← hq, phaseAfter_append, hnone, foldl_phaseStep_none]

/-- A prefix of an execution is an execution. -/
theorem IsExecution_initial (runs : Nat → List Event) (p q : List (Nat × Event))
    (h : IsExecution runs (p ++ q)) : IsExecution runs p := by
  constructor
  · intro hnone
    apply h.1
    rw [mutexAfter_append, hnone, foldl_mutexStep_none]
  · intro i
    have hi := h.2 i
    rw [project_append] at hi
    exact List.IsPrefix.trans (List.prefix_append _ _) hi

/-- The trace of every handler run respects the program order and ends outside
the critical section. -/
theorem TranslateHandler_phase {σ : Type} (env : Env σ) (s0 : σ) (r : HttpRequest) :
    phaseAfter (TranslateHandler env s0 r).trace = some Phase.outside := by
  by_cases hm : r.Method = MethodPost
  · cases hd : env.decode r.Body with
    | error e =>
      rw [TranslateHandler_decode_error env s0 r e hm hd]
      simp only [sendErrorResponse, sendJSONResponse]
      cases env.encode _ <;> rfl
    | ok request =>
      by_cases hc : request.Colors = []
      · rw [TranslateHandler_no_colors env s0 r request hm hd hc]
        simp only [sendErrorResponse, sendJSONResponse]
        cases env.encode _ <;> rfl
      · rw [TranslateHandler_accepted env s0 r request ⟨hm, hd, hc⟩]
        simp only [translateAccepted, sendJSONResponse]
        cases (env.translate request.RenderText { From := "auto", To := request.To } s0).1 <;>
          cases (env.translate (Join (request.Colors.map Color.Name) ", ")
            { From := "auto", To := request.To }
            (env.translate request.RenderText { From := "auto", To := request.To } s0).2).1 <;>
          cases env.encode _ <;> rfl
  · rw [TranslateHandler_wrong_method env s0 r hm]
    rfl

theorem phaseStep_lock (ph : Option Phase) (h : phaseStep ph Event.lock ≠ none) :
    ph = some Phase.outside := by
  rcases ph with _ | _ | _ | _ <;> simp [phaseStep] at h ⊢

theorem phaseStep_call (ph : Option Phase) (text : String) (params : TranslationParams)
    (h : phaseStep ph (Event.call text params) ≠ none) : ph = some Phase.locked := by
  rcases ph with _ | _ | _ | _ <;> simp [phaseStep] at h ⊢

theorem phaseStep_unlock (ph : Option Phase) (h : phaseStep ph Event.unlock ≠ none) :
    ph = some Phase.called := by
  rcases ph with _ | _ | _ | _ <;> simp [phaseStep] at h ⊢

theorem phaseStep_log (ph : Option Phase) (line : String)
    (h : phaseStep ph (Event.log line) ≠ none) : ph = some Phase.outside := by
  rcases ph with _ | _ | _ | _ <;> simp [phaseStep] at h ⊢

/-- The last step of an execution, seen by the handler that performs it, by the
other handlers and by the mutex. -/
theorem execution_last_step (runs : Nat → List Event) (hruns : ∀ i, phaseAfter (runs i) ≠ none)
    (pre : List (Nat × Event)) (i : Nat) (e : Event)
    (h : IsExecution runs (pre ++ [(i, e)])) :
    phaseAfter (project i (pre ++ [(i, e)])) = phaseStep (phaseAfter (project i pre)) e ∧
    phaseStep (phaseAfter (project i pre)) e ≠ none ∧
    (∀ j, j ≠ i → project j (pre ++ [(i, e)]) = project j pre) ∧
    mutexAfter (pre ++ [(i, e)]) = mutexStep (mutexAfter pre) (i, e) ∧
    mutexStep (mutexAfter pre) (i, e) ≠ none := by
  have hself : phaseAfter (project i (pre ++ [(i, e)])) =
      phaseStep (phaseAfter (project i pre)) e := by
    rw [project_append, project_singleton_self, phaseAfter_append]
    rfl
  have hmx : mutexAfter (pre ++ [(i, e)]) = mutexStep (mutexAfter pre) (i, e) := by
    rw [mutexAfter_append]
    rfl
  refine ⟨hself, ?_, ?_, hmx, ?_⟩
  · rw [← hself]
    exact phaseAfter_initial _ _ (h.2 i) (hruns i)
  · intro j hj
    rw [project_append, project_singleton_other j i e (Ne.symm hj), List.append_nil]
  · rw [← hmx]
    exact h.1

/-- The invariant of concurrent executions: the mutex is locked exactly when
some handler owns it, and a handler is inside its critical section exactly when
it is the owner. -/
theorem execution_invariant (runs : Nat → List Event) (hruns : ∀ i, phaseAfter (runs i) ≠ none)
    (sched : List (Nat × Event)) (h : IsExecution runs sched) :
    mutexAfter sched = some (csOwner sched).isSome ∧
    ∀ j, (phaseAfter (project j sched) = some Phase.outside ↔ csOwner sched ≠ some j) := by
  induction sched using List.reverseRecOn with
  | nil =>
    refine ⟨rfl, fun j => ?_⟩
    simp [project, phaseAfter, csOwner]
  | append_singleton pre x ih =>
    obtain ⟨i, e⟩ := x
    obtain ⟨hmx, hph⟩ := ih (IsExecution_initial runs pre [(i, e)] h)
    obtain ⟨hself, hstep, hother, hmutex, hmstep⟩ := execution_last_step runs hruns pre i e h
    rw [csOwner_append_singleton, hmutex]
    cases e with
    | lock =>
      have hout : phaseAfter (project i pre) = some Phase.outside := phaseStep_lock _ hstep
      have hfree : csOwner pre = none := by
        cases hown : csOwner pre with
        | none => rfl
        | some k =>
          rw [hmx, hown] at hmstep
          exact absurd rfl hmstep
      rw [hmx, hfree]
      refine ⟨rfl, fun j => ?_⟩
      by_cases hj : j = i
      · subst hj
        rw [hself, hout]
        simp [phaseStep, ownerStep]
      · rw [hother j hj]
        have hjout : phaseAfter (project j pre) = some Phase.outside := by
          rw [hph j, hfree]
          simp
        simp [hjout, ownerStep, Ne.symm hj]
    | unlock =>
      have hcalled : phaseAfter (project i pre) = some Phase.called := phaseStep_unlock _ hstep
      have hown : csOwner pre = some i := by
        by_contra hne
        have := (hph i).mpr hne
        rw [hcalled] at this
        exact absurd this (by decide)
      rw [hmx, hown]
      refine ⟨rfl, fun j => ?_⟩
      by_cases hj : j = i
      · subst hj
        rw [hself, hcalled]
        simp [phaseStep, ownerStep]
      · rw [hother j hj]
        have hjout : phaseAfter (project j pre) = some Phase.outside := by
          rw [hph j, hown]
          simpa using Ne.symm hj
        simp [hjout, ownerStep]
    | call text params =>
      have hlocked : phaseAfter (project i pre) = some Phase.locked :=
        phaseStep_call _ text params hstep
      have hown : csOwner pre = some i := by
        by_contra hne
        have := (hph i).mpr hne
        rw [hlocked] at this
        exact absurd this (by decide)
      refine ⟨by simpa [mutexStep, ownerStep] using hmx, fun j => ?_⟩
      by_cases hj : j = i
      · subst hj
        rw [hself, hlocked]
        simp [phaseStep, ownerStep, hown]
      · rw [hother j hj]
        simpa [ownerStep] using hph j
    | log line =>
      have hout : phaseAfter (project i pre) = some Phase.outside := phaseStep_log _ line hstep
      refine ⟨by simpa [mutexStep, ownerStep] using hmx, fun j => ?_⟩
      by_cases hj : j = i
      · subst hj
        rw [hself, hout]
        simpa [phaseStep, ownerStep, hout] using hph j
      · rw [hother j hj]
        simpa [ownerStep] using hph j

theorem phaseStep_called (e : Event) (h : phaseStep (some Phase.called) e ≠ none) :
    e = Event.unlock := by
  cases e <;> simp [phaseStep] at h ⊢

/-- A handler that has just locked has `lock` as its last event. -/
theorem phaseAfter_locked (p : List Event) (h : phaseAfter p = some Phase.locked) :
    ∃ p2, p = p2 ++ [Event.lock] := by
  induction p using List.reverseRecOn with
  | nil => exact absurd h (by decide)
  | append_singleton p2 e _ =>
    refine ⟨p2, ?_⟩
    rw [phaseAfter_append] at h
    have hstep : phaseStep (phaseAfter p2) e = some Phase.locked := h
    rcases hph : phaseAfter p2 with _ | _ | _ | _ <;> rw [hph] at hstep <;>
      cases e <;> simp [phaseStep] at hstep ⊢

/-- In a trace that respects the program order and ends outside the critical
section, every provider call has a lock right before it and an unlock right
after it. -/
theorem call_bracketed (t pre post : List Event) (text : String) (params : TranslationParams)
    (ht : phaseAfter t = some Phase.outside)
    (hsplit : t = pre ++ Event.call text params :: post) :
    (∃ pre2, pre = pre2 ++ [Event.lock]) ∧ ∃ post2, post = Event.unlock :: post2 := by
  have hassoc : t = (pre ++ [Event.call text params]) ++ post := by
    rw [hsplit]
    simp
  have hne : phaseAfter t ≠ none := by
    rw [ht]
    simp
  have hpre : phaseAfter (pre ++ [Event.call text params]) ≠ none :=
    phaseAfter_initial _ t ⟨post, hassoc.symm⟩ hne
  have hstep : phaseAfter (pre ++ [Event.call text params]) =
      phaseStep (phaseAfter pre) (Event.call text params) := by
    rw [phaseAfter_append]
    rfl
  have hlocked : phaseAfter pre = some Phase.locked := by
    rw [hstep] at hpre
    exact phaseStep_call _ text params hpre
  refine ⟨phaseAfter_locked pre hlocked, ?_⟩
  have hcalled : phaseAfter (pre ++ [Event.call text params]) = some Phase.called := by
    rw [hstep, hlocked]
    rfl
  rw [hassoc, phaseAfter_append, hcalled] at ht
  cases post with
  | nil => exact absurd ht (by decide)
  | cons e post2 =>
    refine ⟨post2, ?_⟩
    rw [List.foldl_cons] at ht
    have hnn : phaseStep (some Phase.called) e ≠ none := by
      intro hnone
      rw [hnone, foldl_phaseStep_none] at ht
      exact absurd ht (by simp)
    rw [phaseStep_called e hnn]

/-- In an execution, a provider call is made by the handler that owns the
locked mutex, and that handler is right after its own lock. -/
theorem call_by_owner (runs : Nat → List Event) (hruns : ∀ i, phaseAfter (runs i) ≠ none)
    (pre : List (Nat × Event)) (i : Nat) (text : String) (params : TranslationParams)
    (h : IsExecution runs (pre ++ [(i, Event.call text params)])) :
    mutexAfter pre = some true ∧ csOwner pre = some i ∧
      phaseAfter (project i pre) = some Phase.locked := by
  obtain ⟨-, hstep, -, -, -⟩ := execution_last_step runs hruns pre i _ h
  have hlocked : phaseAfter (project i pre) = some Phase.locked :=
    phaseStep_call _ text params hstep
  obtain ⟨hmx, hph⟩ := execution_invariant runs hruns pre
    (IsExecution_initial runs pre [(i, Event.call text params)] h)
  have hown : csOwner pre = some i := by
    by_contra hne
    have := (hph i).mpr hne
    rw [hlocked] at this
    exact absurd this (by decide)
  refine ⟨?_, hown, hlocked⟩
  rw [hmx, hown]
  rfl

/-- After its provider call and until its unlock, a handler performs no
event. -/
theorem no_event_before_unlock (runs : Nat → List Event)
    (hruns : ∀ i, phaseAfter (runs i) ≠ none)
    (pre : List (Nat × Event)) (i : Nat) (text : String) (params : TranslationParams)
    (mid : List (Nat × Event))
    (h : IsExecution runs ((pre ++ [(i, Event.call text params)]) ++ mid))
    (hno : (i, Event.unlock) ∉ mid) :
    project i mid = [] := by
  induction mid using List.reverseRecOn with
  | nil => rfl
  | append_singleton mid2 x ih =>
    obtain ⟨k, e⟩ := x
    have hno2 : (i, Event.unlock) ∉ mid2 := fun hmem => hno (List.mem_append_left _ hmem)
    have hassoc : (pre ++ [(i, Event.call text params)]) ++ (mid2 ++ [(k, e)]) =
        ((pre ++ [(i, Event.call text params)]) ++ mid2) ++ [(k, e)] := by
      simp
    rw [hassoc] at h
    have hmid2 := ih (IsExecution_initial runs _ [(k, e)] h) hno2
    by_cases hk : k = i
    · subst hk
      exfalso
      obtain ⟨-, hstep, -, -, -⟩ := execution_last_step runs hruns _ k e h
      obtain ⟨-, -, hlocked⟩ := call_by_owner runs hruns pre k text params
        (IsExecution_initial runs _ mid2 (IsExecution_initial runs _ [(k, e)] h))
      have hphase : phaseAfter (project k ((pre ++ [(k, Event.call text params)]) ++ mid2)) =
          some Phase.called := by
        rw [project_append, project_append, project_singleton_self, hmid2, List.append_nil,
          phaseAfter_append, hlocked]
        rfl
      rw [hphase] at hstep
      have he := phaseStep_called e hstep
      apply hno
      rw [he]
      simp
    · rw [project_append, hmid2, project_singleton_other i k e hk]
      rfl

/-- In an execution, two provider calls are separated by the unlock of the
handler that made the first one. -/
theorem calls_separated (runs : Nat → List Event) (hruns : ∀ i, phaseAfter (runs i) ≠ none)
    (pre mid : List (Nat × Event)) (i j : Nat) (text text2 : String)
    (params params2 : TranslationParams)
    (h : IsExecution runs
      (((pre ++ [(i, Event.call text params)]) ++ mid) ++ [(j, Event.call text2 params2)])) :
    (i, Event.unlock) ∈ mid := by
  by_contra hno
  have hE := IsExecution_initial runs _ [(j, Event.call text2 params2)] h
  have hmid := no_event_before_unlock runs hruns pre i text params mid hE hno
  obtain ⟨-, -, hlocked⟩ := call_by_owner runs hruns pre i text params
    (IsExecution_initial runs _ mid hE)
  have hphase : phaseAfter (project i ((pre ++ [(i, Event.call text params)]) ++ mid)) =
      some Phase.called := by
    rw [project_append, project_append, project_singleton_self, hmid, List.append_nil,
      phaseAfter_append, hlocked]
    rfl
  obtain ⟨-, hownj, hlockedj⟩ := call_by_owner runs hruns _ j text2 params2 h
  obtain ⟨-, hph⟩ := execution_invariant runs hruns _ hE
  have howni : csOwner ((pre ++ [(i, Event.call text params)]) ++ mid) = some i := by
    by_contra hne
    have := (hph i).mpr hne
    rw [hphase] at this
    exact absurd this (by decide)
  rw [howni] at hownj
  have hij : i = j := Option.some.inj hownj
  subst hij
  rw [hphase] at hlockedj
  exact absurd hlockedj (by decide)

/-- The schedule `twoSchedule` is an execution of the concurrent handlers that
serve `twoRequests` with a provider that succeeds. -/
theorem twoSchedule_isExecution :
    IsExecution
      (fun i => (TranslateHandler (scriptedEnv (twoRequests i)) [.ok "T", .ok "N"]
        ⟨"POST", ""⟩).trace) twoSchedule := by
  refine ⟨by decide, fun i => ?_⟩
  match i with
  | 0 => exact ⟨[], by decide⟩
  | 1 => exact ⟨[Event.unlock], by decide⟩
  | n + 2 =>
    have hnil : project (n + 2) twoSchedule = [] := by
      simp [project, twoSchedule]
    rw [hnil]
    exact List.nil_prefix

/-! ## The claim on provider serialization -/

/-- C16 (provider serialization). Take any family of concurrently handled
requests and any execution of their handlers that respects `translateMutex`
(a lock event happens only while the mutex is unlocked).  In every handler's
trace each provider call has the lock right before it and the unlock right
after it.  At every provider call of the execution the mutex is locked and was
last acquired by the calling handler.  Two provider calls of the execution,
by the same or by different handlers, are separated by the unlock of the
handler that made the first one: no two provider calls overlap. -/
theorem C16_provider_serialization {σ : Type} (env : Nat → Env σ) (s0 : Nat → σ)
    (r : Nat → HttpRequest) (sched : List (Nat × Event))
    (hexec : IsExecution (fun i => (TranslateHandler (env i) (s0 i) (r i)).trace) sched) :
    (∀ (i : Nat) (pre post : List Event) (text : String) (params : TranslationParams),
      (TranslateHandler (env i) (s0 i) (r i)).trace = pre ++ Event.call text params :: post →
      (∃ pre2, pre = pre2 ++ [Event.lock]) ∧ ∃ post2, post = Event.unlock :: post2) ∧
    (∀ (pre post : List (Nat × Event)) (i : Nat) (text : String) (params : TranslationParams),
      sched = pre ++ (i, Event.call text params) :: post →
      mutexAfter pre = some true ∧ csOwner pre = some i) ∧
    (∀ (pre mid post : List (Nat × Event)) (i j : Nat) (text text2 : String)
      (params params2 : TranslationParams),
      sched = pre ++ (i, Event.call text params) ::
        (mid ++ (j, Event.call text2 params2) :: post) →
      (i, Event.unlock) ∈ mid) := by
  have hruns : ∀ i, phaseAfter ((fun i => (TranslateHandler (env i) (s0 i) (r i)).trace) i)
      ≠ none := by
    intro i
    show phaseAfter (TranslateHandler (env i) (s0 i) (r i)).trace ≠ none
    rw [TranslateHandler_phase]
    simp
  refine ⟨?_, ?_, ?_⟩
  · intro i pre post text params hsplit
    exact call_bracketed _ pre post text params (TranslateHandler_phase (env i) (s0 i) (r i))
      hsplit
  · intro pre post i text params hsplit
    have hassoc : sched = (pre ++ [(i, Event.call text params)]) ++ post := by
      rw [hsplit]
      simp
    rw [hassoc] at hexec
    obtain ⟨hmx, hown, -⟩ := call_by_owner _ hruns pre i text params
      (IsExecution_initial _ _ post hexec)
    exact ⟨hmx, hown⟩
  · intro pre mid post i j text text2 params params2 hsplit
    have hassoc : sched =
        ((((pre ++ [(i, Event.call text params)]) ++ mid) ++ [(j, Event.call text2 params2)])
          ++ post) := by
      rw [hsplit]
      simp
    rw [hassoc] at hexec
    exact calls_separated _ hruns pre mid i j text text2 params params2
      (IsExecution_initial _ _ post hexec)

/-- C16 on two concurrent handlers that alternate, at a moment when handler 1
is inside its second provider call; a schedule in which handler 1 locks while
handler 0 is inside its call is refused by the mutex. -/
theorem C16_provider_serialization_witness :
    IsExecution
      (fun i => (TranslateHandler (scriptedEnv (twoRequests i)) [.ok "T", .ok "N"]
        ⟨"POST", ""⟩).trace) twoSchedule ∧
    mutexAfter [(0, Event.lock), (0, Event.call "pick one" { From := "auto", To := "xx" }),
      (1, Event.lock)] = none ∧
    ((∀ (i : Nat) (pre post : List Event) (text : String) (params : TranslationParams),
      (TranslateHandler (scriptedEnv (twoRequests i)) [.ok "T", .ok "N"] ⟨"POST", ""⟩).trace
        = pre ++ Event.call text params :: post →
      (∃ pre2, pre = pre2 ++ [Event.lock]) ∧ ∃ post2, post = Event.unlock :: post2) ∧
    (∀ (pre post : List (Nat × Event)) (i : Nat) (text : String) (params : TranslationParams),
      twoSchedule = pre ++ (i, Event.call text params) :: post →
      mutexAfter pre = some true ∧ csOwner pre = some i) ∧
    (∀ (pre mid post : List (Nat × Event)) (i j : Nat) (text text2 : String)
      (params params2 : TranslationParams),
      twoSchedule = pre ++ (i, Event.call text params) ::
        (mid ++ (j, Event.call text2 params2) :: post) →
      (i, Event.unlock) ∈ mid)) :=
  ⟨twoSchedule_isExecution, by decide,
    C16_provider_serialization (fun i => scriptedEnv (twoRequests i))
      (fun _ => [.ok "T", .ok "N"]) (fun _ => ⟨"POST", ""⟩) twoSchedule
      twoSchedule_isExecution⟩

end TranslationResearch
